import Mathlib

/-!
# vdif_fake: a shallow embedding of the sender and its calendar arithmetic

The definitions below follow `utilities/trunk/bench/vdif_fake.c`.

* C `int` values are mathematical integers; an operation whose result would
  not fit 32 bits ends the run in `Run.undefined`, so nothing is claimed about it.
* C `/` and `%` on `int` truncate towards zero: `Int.tdiv` and `Int.tmod`.
* The 64-bit unsigned counters `totalpackets` and `udp.sequence` wrap modulo `2^64`.
* A `double` holding a day number is an exact rational.
* System calls (`send`, `sendmsg`) take their results from a script carried by
  the socket model, one entry per call.
-/

namespace VdifFake

/-! ## C integers and outcomes -/

/-- Smallest value of the C type int. -/
def INT_MIN : Int := -2147483648

/-- Largest value of the C type int. -/
def INT_MAX : Int := 2147483647

/-- The value is representable in the C type int. -/
def fitsInt (x : Int) : Bool := decide (INT_MIN ≤ x) && decide (x ≤ INT_MAX)

/-- Modulus of the 64-bit unsigned types (uint64_t, size_t). -/
def U64 : Nat := 18446744073709551616

/-- Outcome of running a piece of the program.
`ok` is normal continuation, `exited` is a call of exit (or a return from main)
with the given code, `undefined` is an operation the C language leaves undefined or
out of range (signed overflow, out-of-range conversion, division by zero,
out-of-bounds access), `starved` means the scripted environment has no further
system-call result to hand out. -/
inductive Run (α : Type) where
  | ok : α → Run α
  | exited : Int → Run α
  | undefined : Run α
  | starved : Run α
  deriving DecidableEq, Repr

/-- Sequencing of outcomes. -/
def Run.bind {α β : Type} (r : Run α) (f : α → Run β) : Run β :=
  match r with
  | .ok a => f a
  | .exited c => .exited c
  | .undefined => .undefined
  | .starved => .starved

/-- An int-typed intermediate result: undefined when it does not fit. -/
def checked (x : Int) : Run Int := if fitsInt x then .ok x else .undefined

/-- The C expression x & ~0x7 on a two's complement int: the three low-order
bits are cleared, which rounds down to a multiple of 8 (see maskLow3_eq_land). -/
def maskLow3 (x : Int) : Int := x - x % 8

/-! ## Configuration held by main after option parsing -/

/-- The C enum datamode. -/
inductive datamode where
  | VDIF
  | CODIF
  deriving DecidableEq, Repr

/-- The C struct udp (the destination address is left out). The flags
enabled and vtp only ever hold 0 or 1. -/
structure Udp where
  enabled : Bool
  size : Int
  vtp : Bool
  sequence : Nat
  usleep : ℚ
  lastsleep : ℚ
  deriving DecidableEq

/-- Variables of main that the option loop (lines 161-412) may set, with the
header sizes of vdifio.h and codifio.h, which are not part of this source
file, taken as parameters. -/
structure Params where
  numchan : Int
  numthread : Int
  firstthread : Int
  drop : Int
  mode : datamode
  bits : Int
  bandwidth : Int
  framesize : Int
  rate : ℚ
  udp : Udp
  VDIF_HEADER_BYTES : Int
  CODIF_HEADER_BYTES : Int

/-- Values of the variables when no option is given (lines 86-115), with the
header sizes 32 and 64 of the VDIF and CODIF formats. The field
udp.sequence is not set by the declarations; 0 stands for its content. -/
def defaults : Params where
  numchan := 4
  numthread := 1
  firstthread := 0
  drop := -1
  mode := .VDIF
  bits := 2
  bandwidth := 16
  framesize := 9000
  rate := 0
  udp := ⟨false, 0, true, 0, 0, 0⟩
  VDIF_HEADER_BYTES := 32
  CODIF_HEADER_BYTES := 64

/-- The options -udp 44: datagram mode with a 44-byte datagram size, all
else as by default. -/
def udp44 : Params := { defaults with udp := ⟨true, 44, true, 0, 0, 0⟩ }

/-- The options -udp 1500: datagram mode with a 1500-byte datagram size, all
else as by default. -/
def udp1500 : Params := { defaults with udp := ⟨true, 1500, true, 0, 0, 0⟩ }

/-! ## Frame-size solver (main, lines 454-501) -/

/-- Line 454: datarate = numchan*bits*bandwidth*2, evaluated left to right in int. -/
def datarate (numchan bits bandwidth : Int) : Run Int :=
  (checked (numchan * bits)).bind fun a =>
  (checked (a * bandwidth)).bind fun b =>
  checked (b * 2)

/-- Lines 457-471: reserve the IP header, the UDP header and the sequence
number inside the datagram size, truncate to a multiple of 8, and reject a
size that is not positive. In stream mode drop is switched off. Returns the
udp struct and the value of drop. -/
def udpReserve (udp : Udp) (drop : Int) : Run (Udp × Int) :=
  if udp.enabled then
    (checked (udp.size - 20)).bind fun s1 =>
    (checked (s1 - 4 * 2)).bind fun s2 =>
    (if udp.vtp then checked (s2 - 8) else .ok s2).bind fun s3 =>
    let s4 := maskLow3 s3
    if s4 ≤ 0 then .exited 1
    else .ok ({ udp with sequence := 0, size := s4 }, drop)
  else .ok (udp, -1)

/-- Lines 473-476: the header size of the chosen format. -/
def headerBytes (p : Params) : Int :=
  match p.mode with
  | .VDIF => p.VDIF_HEADER_BYTES
  | .CODIF => p.CODIF_HEADER_BYTES

/-- Lines 484-487: the size the solver starts from. -/
def startSize (udp : Udp) (header_bytes framesize : Int) : Run Int :=
  if udp.enabled then checked (udp.size - header_bytes) else .ok framesize

/-- The conversion (int)(datarate*1e6) of line 491. -/
def rateInt (datarate : Int) : Run Int := checked (datarate * 1000000)

/-- The loop of lines 490-493 for a converted rate. Each pass lowers bufsize
by 8, so bufsize passes suffice; the first argument bounds their number. -/
def solveLoop (rate : Int) : Nat → Int → Int
  | 0, bufsize => bufsize
  | fuel + 1, bufsize =>
    if 0 < bufsize then
      if rate.tmod bufsize = 0 then bufsize
      else solveLoop rate fuel (bufsize - 8)
    else bufsize

/-- Lines 490-497: the solver with its failure exit. The conversion of the
rate is evaluated only when the loop body runs. -/
def solveFrameSize (datarate bufsize : Int) : Run Int :=
  if 0 < bufsize then
    (rateInt datarate).bind fun rate =>
    let b := solveLoop rate bufsize.toNat bufsize
    if b = 0 then .exited 1 else .ok b
  else if bufsize = 0 then .exited 1
  else .ok bufsize

/-- Line 501: framepersec = datarate*1e6/((bufsize-header_bytes)*8). The
quotient is formed in double and converted to int, which truncates; a zero
divisor gives an infinity or a NaN, whose conversion is undefined. -/
def framepersec (datarate bufsize header_bytes : Int) : Run Int :=
  (checked (bufsize - header_bytes)).bind fun d =>
  (checked (d * 8)).bind fun d8 =>
  if d8 = 0 then .undefined
  else checked ((datarate * 1000000).tdiv d8)

/-- Sizes fixed by main before the send loop. -/
structure Sizing where
  udp : Udp
  drop : Int
  datarate : Int
  header_bytes : Int
  bufsize : Int
  framepersec : Int
  deriving DecidableEq

/-- Lines 454-501 in sequence. -/
def sizing (p : Params) : Run Sizing :=
  (datarate p.numchan p.bits p.bandwidth).bind fun dr =>
  (udpReserve p.udp p.drop).bind fun ud =>
  let hb := headerBytes p
  (startSize ud.1 hb p.framesize).bind fun b0 =>
  (solveFrameSize dr b0).bind fun b =>
  let udp1 := if ud.1.enabled then { ud.1 with size := b } else ud.1
  (framepersec dr b hb).bind fun fps =>
  .ok ⟨udp1, ud.2, dr, hb, b, fps⟩

/-- What a pointer stored in iov_base (or handed to tcpsend) points to:
the field udp.sequence, the header of one thread in the header array of the
chosen format, or the payload buffer buf of main. An entry that was never assigned
is unset. -/
inductive Ptr where
  | sequence : Ptr
  | header : Int → Ptr
  | payload : Ptr
  | unset : Ptr
  deriving DecidableEq, Repr

/-- One entry of the scatter/gather array iovect. The length has the type
size_t. -/
structure IoVec where
  iov_base : Ptr
  iov_len : Nat
  deriving DecidableEq, Repr

/-- What lines 566-601 set up: the number of entries handed to sendmsg, the
index of the header entry, the lengths of the entries, and framebytes. -/
structure Layout where
  msg_iovlen : Nat
  ihead : Nat
  lens : List Int
  framebytes : Int
  deriving DecidableEq, Repr

/-- Lines 566-601. In stream mode msg is not filled in; 0 stands for its
entry count there. -/
def layout (udp : Udp) (header_bytes bufsize : Int) : Layout :=
  if udp.enabled then
    if udp.vtp then ⟨3, 1, [8, header_bytes, bufsize], 8 + header_bytes + bufsize⟩
    else ⟨2, 0, [header_bytes, bufsize], header_bytes + bufsize⟩
  else ⟨0, 0, [header_bytes, bufsize], header_bytes + bufsize⟩

/-- Conversion of an int to size_t. -/
def toSizeT (x : Int) : Nat := (x % (U64 : Int)).toNat

/-- The array iovect as lines 566-601 leave it: the header entry has its
length set and its base still unassigned. -/
def iovectInit (udp : Udp) (header_bytes bufsize : Int) : List IoVec :=
  if udp.enabled && udp.vtp then
    [⟨.sequence, 8⟩, ⟨.unset, toSizeT header_bytes⟩, ⟨.payload, toSizeT bufsize⟩]
  else
    [⟨.unset, toSizeT header_bytes⟩, ⟨.payload, toSizeT bufsize⟩]

/-! ## Transport sender (tcpsend, netsend, my_usleep; lines 762-813, 1029-1047) -/

/-- What one call of send or sendmsg hands back: the returned value and, when
it is -1, whether errno is EINTR. -/
structure SysRet where
  ret : Int
  eintr : Bool
  deriving DecidableEq, Repr

/-- A run of count bytes starting offset bytes after a pointer. -/
structure Chunk where
  base : Ptr
  offset : Int
  count : Nat
  deriving DecidableEq, Repr

/-- Calls observed at the boundary of the sender. -/
inductive Event where
  | tcpsend : Ptr → Nat → Event
  | send : Ptr → Int → Nat → Event
  | sendmsg : List IoVec → Event
  | my_usleep : Event
  deriving DecidableEq, Repr

/-- The environment of the sender: the results the coming system calls will
return, the coming readings of the clock, the calls made so far, and the
chunks the stream transport has accepted so far, in order. -/
structure Env where
  script : List SysRet
  clock : List ℚ
  trace : List Event
  wire : List Chunk
  deriving DecidableEq

/-- The loop of tcpsend (lines 765-778); ptr is kept as an offset from buf.
Each pass takes one result from the script. -/
def tcpsendLoop (buf : Ptr) :
    List SysRet → Int → Nat → List Event → List Chunk →
      Run (Int × List SysRet × List Event × List Chunk)
  | [], _, length, trace, wire =>
    if length = 0 then .ok (0, [], trace, wire) else .starved
  | r :: rest, ptr, length, trace, wire =>
    if length = 0 then .ok (0, r :: rest, trace, wire)
    else
      let trace1 := trace ++ [.send buf ptr length]
      if r.ret = -1 then
        if r.eintr then tcpsendLoop buf rest ptr length trace1 wire
        else .ok (1, rest, trace1, wire)
      else if r.ret = 0 then .ok (1, rest, trace1, wire)
      else
        tcpsendLoop buf rest (ptr + r.ret) (toSizeT (length - r.ret)) trace1
          (wire ++ [⟨buf, ptr, r.ret.toNat⟩])

/-- The function tcpsend (lines 762-780): status and environment afterwards. -/
def tcpsend (buf : Ptr) (length : Nat) (env : Env) : Run (Int × Env) :=
  (tcpsendLoop buf env.script 0 length (env.trace ++ [.tcpsend buf length]) env.wire).bind
    fun r => .ok (r.1, { env with script := r.2.1, trace := r.2.2.1, wire := r.2.2.2 })

/-- The spin of my_usleep (lines 1042-1045): read the clock until it reaches till. -/
def spin (till : ℚ) : List ℚ → ℚ → Run (ℚ × List ℚ)
  | [], now => if now < till then .starved else .ok (now, [])
  | t :: rest, now => if now < till then spin till rest t else .ok (now, t :: rest)

/-- The function my_usleep (lines 1029-1047). -/
def my_usleep (udp : Udp) (env : Env) : Run (Udp × Env) :=
  match env.clock with
  | [] => .starved
  | now :: rest =>
    (spin (udp.lastsleep + udp.usleep) rest now).bind fun r =>
      .ok ({ udp with lastsleep := r.1 },
           { env with clock := r.2, trace := env.trace ++ [.my_usleep] })

/-- Largest value of the C type ssize_t plus one. -/
def SSIZE_LIMIT : Nat := 9223372036854775808

/-- The function netsend (lines 783-813): status, udp struct and environment
afterwards. msg_iovlen is the entry count stored in msg. The counter ntosend
has the type ssize_t; lengths whose sum does not fit it are out of range. -/
def netsend (msg_iovlen : Nat) (iovect : List IoVec) (udp : Udp) (env : Env) :
    Run (Int × Udp × Env) :=
  if udp.enabled then
    if iovect.length < msg_iovlen then .undefined
    else if SSIZE_LIMIT ≤ ((iovect.take msg_iovlen).map fun v => v.iov_len).sum then .undefined
    else
      let iov := iovect.take msg_iovlen
      let ntosend : Int := ((iov.map fun v => v.iov_len).sum : Nat)
      match env.script with
      | [] => .starved
      | r :: rest =>
        let env1 := { env with script := rest, trace := env.trace ++ [.sendmsg iov] }
        if r.ret = -1 then .ok (1, udp, env1)
        else if r.ret ≠ ntosend then .ok (1, udp, env1)
        else if 0 < udp.usleep then
          (my_usleep udp env1).bind fun r => .ok (0, r.1, r.2)
        else .ok (0, udp, env1)
  else
    match iovect with
    | [] => .undefined
    | v0 :: _ =>
      (tcpsend v0.iov_base v0.iov_len env).bind fun r1 =>
      if r1.1 ≠ 0 then .ok (r1.1, udp, r1.2)
      else
        (tcpsend v0.iov_base v0.iov_len r1.2).bind fun r2 =>
        if r2.1 ≠ 0 then .ok (r2.1, udp, r2.2)
        else .ok (0, udp, r2.2)

/-! ## Send loop (main, lines 503-523 and 603-654) -/

/-- Size of the header arrays vdif_headers and codif_headers (line 39). -/
def MAXVDIFTHREADS : Nat := 64

/-- Modelled from the spec: the frame header of the vdifio and codifio
libraries, which are not part of this source. Of its attributes the thread
index, the whole-second timestamp and the frame-within-second counter are kept. -/
structure Header where
  threadid : Int
  seconds : Int
  frame : Int
  deriving DecidableEq, Repr

/-- Modelled from the spec: the library calls nextVDIFHeader and
nextCODIFHeader, which are not part of this source. The advance operation
increments the frame-within-second counter; if it reaches framesPerSecond,
it resets to zero and increments the seconds field. -/
def nextHeader (h : Header) (framepersec : Int) : Header :=
  if h.frame + 1 = framepersec then { h with seconds := h.seconds + 1, frame := 0 }
  else { h with frame := h.frame + 1 }

/-- The header array after the loop of lines 504-523: slot i is written for
0 ≤ i < numthread with thread index i + firstthread and the start second;
the other slots are never written. -/
def initHeaders (numthread firstthread mjdsec : Int) : List (Option Header) :=
  (List.range MAXVDIFTHREADS).map fun i =>
    if (i : Int) < numthread then some ⟨i + firstthread, mjdsec, 0⟩ else none

/-- Values the send loop reads and never changes. -/
structure LoopCfg where
  numthread : Int
  drop : Int
  framepersec : Int
  framebytes : Int
  msg_iovlen : Nat
  ihead : Nat
  deriving DecidableEq, Repr

/-- Variables the send loop changes, with the environment. The byte totals
of the periodic report (lines 624-634) and the stop test on mjd are left out:
the loop is followed for a given number of cycles. -/
structure Loop where
  iovect : List IoVec
  headers : List (Option Header)
  currentthread : Int
  totalpackets : Nat
  bwrote : Nat
  udp : Udp
  env : Env
  deriving DecidableEq

/-- The state at line 608, before the first cycle. -/
def loopEntry (iovect : List IoVec) (headers : List (Option Header)) (udp : Udp)
    (env : Env) : Loop :=
  ⟨iovect, headers, 0, 0, 0, udp, env⟩

/-- Lines 611-615: point the header entry of iovect at the header of the
current thread. -/
def setHeaderBase (iovect : List IoVec) (ihead : Nat) (currentthread : Int) : List IoVec :=
  match iovect.get? ihead with
  | none => iovect
  | some v => iovect.set ihead { v with iov_base := .header currentthread }

/-- Lines 620-622: the call of netsend, the exit when it fails, and the
byte count. -/
def sendFrame (c : LoopCfg) (s : Loop) : Run Loop :=
  (netsend c.msg_iovlen s.iovect s.udp s.env).bind fun r =>
    if r.1 ≠ 0 then .exited 1
    else .ok { s with udp := r.2.1, env := r.2.2,
                      bwrote := toSizeT (s.bwrote + c.framebytes) }

/-- Lines 611-623: point iovect at the current header, count the packet and
send it unless the drop test says to skip it. The modulo of line 619 is
evaluated only when drop is not negative; its divisor is drop converted to
uint64_t, and a zero divisor is undefined. -/
def sendStep (c : LoopCfg) (s : Loop) : Run Loop :=
  let s1 := { s with iovect := setHeaderBase s.iovect c.ihead s.currentthread,
                     totalpackets := (s.totalpackets + 1) % U64 }
  if c.drop < 0 then sendFrame c s1
  else if c.drop = 0 then .undefined
  else if s1.totalpackets % c.drop.toNat ≠ 0 then sendFrame c s1
  else .ok s1

/-- Lines 636-653: advance the header of the current thread and rotate the
thread index; on wraparound the sequence counter is incremented. The two
branches on the format differ only in the header array used. -/
def advanceStep (c : LoopCfg) (s : Loop) : Run Loop :=
  if s.currentthread < 0 then .undefined
  else
    match s.headers.get? s.currentthread.toNat with
    | none => .undefined
    | some h =>
      let headers := s.headers.set s.currentthread.toNat
        (h.map fun x => nextHeader x c.framepersec)
      if s.currentthread + 1 = c.numthread then
        .ok { s with headers := headers, currentthread := 0,
                     udp := { s.udp with sequence := (s.udp.sequence + 1) % U64 } }
      else .ok { s with headers := headers, currentthread := s.currentthread + 1 }

/-- One pass of the loop body (lines 609-654). -/
def cycle (c : LoopCfg) (s : Loop) : Run Loop :=
  (sendStep c s).bind (advanceStep c)

/-- The state after the given number of cycles. -/
def run (c : LoopCfg) : Nat → Loop → Run Loop
  | 0, s => .ok s
  | k + 1, s => (run c k s).bind (cycle c)

/-- The event is a call of sendmsg. -/
def Event.isSendmsg : Event → Bool
  | .sendmsg _ => true
  | _ => false

/-- Number of sendmsg calls made so far. -/
def sendmsgCount (s : Loop) : Nat := s.env.trace.countP Event.isSendmsg

/-- The state an outcome carries, or the given state when it carries none. -/
def Run.getD {α : Type} (r : Run α) (d : α) : α :=
  match r with
  | .ok a => a
  | _ => d

/-- The values the send loop reads, as main has them after lines 454-501 and
566-601. -/
def loopCfg (p : Params) (z : Sizing) : LoopCfg :=
  ⟨p.numthread, z.drop, z.framepersec,
    (layout z.udp z.header_bytes z.bufsize).framebytes,
    (layout z.udp z.header_bytes z.bufsize).msg_iovlen,
    (layout z.udp z.header_bytes z.bufsize).ihead⟩

/-- The options -udp 1500 -drop 3. -/
def udp1500drop3 : Params := { udp1500 with drop := 3 }

/-- The options -udp 1500 -nthread 3. -/
def udp1500three : Params := { udp1500 with numthread := 3 }

/-- Send-loop values for the options -udp 1500 -drop 3: datagram mode with
the VTP envelope, 32-byte headers, 1280-byte payload, one thread and every
third packet dropped (see cfgDrop3_eq). -/
def cfgDrop3 : LoopCfg := ⟨1, 3, 25641, 8 + 32 + 1280, 3, 1⟩

/-- Loop entry for cfgDrop3, with an environment in which the next twenty
calls of sendmsg send the whole datagram of 1320 bytes. -/
def entryDrop3 : Loop :=
  loopEntry (iovectInit ⟨true, 1280, true, 0, 0, 0⟩ 32 1280) (initHeaders 1 0 0)
    ⟨true, 1280, true, 0, 0, 0⟩ ⟨List.replicate 20 ⟨1320, false⟩, [], [], []⟩

/-- Send-loop values for the options -udp 1500 -nthread 3: datagram mode
with three threads and no drop (see cfgThree_eq). -/
def cfgThree : LoopCfg := ⟨3, -1, 25641, 8 + 32 + 1280, 3, 1⟩

/-- Loop entry for cfgThree, with an environment in which the next seven
calls of sendmsg send the whole datagram of 1320 bytes. -/
def entryThree : Loop :=
  loopEntry (iovectInit ⟨true, 1280, true, 0, 0, 0⟩ 32 1280) (initHeaders 3 0 0)
    ⟨true, 1280, true, 0, 0, 0⟩ ⟨List.replicate 7 ⟨1320, false⟩, [], [], []⟩

/-! ## Calendar arithmetic (lines 815-837, 963-1009, 1049-1068) -/

/-- The function leap (lines 963-965); the result is the int 0 or 1. -/
def leap (year : Int) : Int :=
  if (year.tmod 4 = 0 ∧ year.tmod 100 ≠ 0) ∨ year.tmod 400 = 0 then 1 else 0

/-- The month-length table days of line 967. -/
def days : List Int := [31, 28, 31, 30, 31, 30, 31, 31, 30, 31, 30, 31]

/-- The table days after the adjustment of its February entry that
cal2dayno and dayno2cal make for the given year (lines 974-978, 992-996). -/
def daysOf (year : Int) : List Int :=
  days.set 1 (if leap year ≠ 0 then 29 else 28)

/-- The function cal2mjd (lines 1049-1068). The result is an int converted
to double, hence exact. Every int-typed intermediate value has to fit. -/
def cal2mjd (day month year : Int) : Run Int :=
  let m := if month ≤ 2 then month + 9 else month - 3
  let y := if month ≤ 2 then year - 1 else year
  let c := y.tdiv 100
  let y1 := y - c * 100
  let x1 := (146097 * c).tdiv 4
  let x2 := (1461 * y1).tdiv 4
  let x3 := (153 * m + 2).tdiv 5
  let r := x1 + x2 + x3 + day - 678882
  if [day, month, year, m, y, c * 100, y1, 146097 * c, 1461 * y1, 153 * m, 153 * m + 2,
      x1 + x2, x1 + x2 + x3, x1 + x2 + x3 + day, r].all fitsInt
  then .ok r else .undefined

/-- The C library call fmod(x, 1.0): x less its integer part, the integer
part being truncated towards zero, so the result has the sign of x. -/
def fmod1 (x : ℚ) : ℚ := x - (if 0 ≤ x then (⌊x⌋ : ℚ) else (⌈x⌉ : ℚ))

/-- Lines 831-836 of mjd2cal: day, month and year from the integer jd. Every
int-typed intermediate value has to fit. -/
def jd2cal (jd : Int) : Run (Int × Int × Int) :=
  let a := (4 * jd - 17918).tdiv 146097
  let b := ((6 * a).tdiv 4 + 1).tdiv 2
  let temp1 := 4 * (jd + b - 37)
  let t := ((temp1 - 237).tmod 1461).tdiv 4
  let temp2 := 10 * t + 5
  let year := temp1.tdiv 1461 - 4712
  let month := (temp2.tdiv 306 + 2).tmod 12 + 1
  let day := (temp2.tmod 306).tdiv 10 + 1
  if [jd, 4 * jd, 4 * jd - 17918, 6 * a, (6 * a).tdiv 4 + 1, jd + b, jd + b - 37, temp1,
      temp1 - 237, 10 * t, temp2, year, temp2.tdiv 306 + 2, month, day].all fitsInt
  then .ok (day, month, year) else .undefined

/-- The function mjd2cal (lines 815-837); the result lists day, month, year
and ut in the order of the output parameters. -/
def mjd2cal (mjd : ℚ) : Run (Int × Int × Int × ℚ) :=
  let ut0 := fmod1 mjd
  let ut := if ut0 < 0 then ut0 + 1 else ut0
  let mjd1 := if ut0 < 0 then mjd - 1 else mjd
  let jd := ⌊mjd1 + 2400001⌋
  (jd2cal jd).bind fun d => .ok (d.1, d.2.1, d.2.2, ut)

/-- A date of the proleptic Gregorian calendar: the month is 1 to 12 and the
day is 1 to the length of that month in that year. -/
def validDate (day month year : Int) : Prop :=
  1 ≤ month ∧ month ≤ 12 ∧ 1 ≤ day ∧ day ≤ (daysOf year).getD (month - 1).toNat 0

instance (day month year : Int) : Decidable (validDate day month year) := by
  unfold validDate; infer_instance

/-- The calendar day after a date, with carry at the end of the month and
of the year. -/
def nextDay (day month year : Int) : Int × Int × Int :=
  if day < (daysOf year).getD (month - 1).toNat 0 then (day + 1, month, year)
  else if month < 12 then (1, month + 1, year)
  else (1, 1, year + 1)

/-! ## Day of year (cal2dayno and dayno2cal, lines 969-1009) -/

/-- The loop of cal2dayno (lines 981-983) over the table entries from index
mon on: dayno += days[mon] while mon < month. Reading past the twelfth
entry is out of bounds. -/
def cal2daynoLoop : List Int → Int → Int → Int → Run Int
  | [], mon, month, dayno => if mon < month then .undefined else .ok dayno
  | d :: rest, mon, month, dayno =>
    if mon < month then
      (checked (dayno + d)).bind fun s => cal2daynoLoop rest (mon + 1) month s
    else .ok dayno

/-- The function cal2dayno (lines 969-986). -/
def cal2dayno (day month year : Int) : Run Int :=
  (checked (month - 1)).bind fun m => cal2daynoLoop (daysOf year) 0 m day

/-- Lines 1004-1006 of dayno2cal: with dcur = days[month] taken off end
again, the day is dayno - end and the month is counted from 1. -/
def dayno2calEnd (dcur month endv dayno : Int) : Run (Int × Int) :=
  (checked (endv - dcur)).bind fun e =>
  (checked (dayno - e)).bind fun day => .ok (day, month + 1)

/-- The loop of dayno2cal (lines 1000-1003) and the lines after it; dcur is
days[month], the list holds the table entries after index month. Stepping
past the twelfth entry is out of bounds. -/
def dayno2calLoop : List Int → Int → Int → Int → Int → Run (Int × Int)
  | [], dcur, month, endv, dayno =>
    if endv < dayno then .undefined else dayno2calEnd dcur month endv dayno
  | d :: rest, dcur, month, endv, dayno =>
    if endv < dayno then
      (checked (endv + d)).bind fun e => dayno2calLoop rest d (month + 1) e dayno
    else dayno2calEnd dcur month endv dayno

/-- The function dayno2cal (lines 989-1009); the result lists day and month
in the order of the output parameters. -/
def dayno2cal (dayno year : Int) : Run (Int × Int) :=
  match daysOf year with
  | [] => .undefined
  | d :: rest => dayno2calLoop rest d 0 d dayno

/-! ## Sexagesimal formatting (turns_to_string, lines 870-945) -/

/-- The decimal digits sprintf prints for a natural number with the
conversion %d. -/
def digitChars (n : Nat) : List Char :=
  if n = 0 then ['0'] else (Nat.digits 10 n).reverse.map Nat.digitChar

/-- What sprintf prints for an int with the conversion %0wd (w = 0 stands
for plain %d): a minus sign for a negative value, then the digits, padded
with zeros on the left to the width w. -/
def fmtInt (w : Nat) (x : Int) : List Char :=
  if x < 0 then
    '-' :: (List.replicate (w - 1 - (digitChars x.natAbs).length) '0' ++ digitChars x.natAbs)
  else List.replicate (w - (digitChars x.toNat).length) '0' ++ digitChars x.toNat

/-- Lines 870-945 of turns_to_string: the string built in the local array
out. The whole number of turns is taken by a conversion to int, the scaled
value by a conversion to unsigned long after 0.5 is added; the array holds
20 characters with the terminating NUL. The warning printed when the number
of decimal places is changed is left out. -/
def turnsOut (turns : ℚ) (type : Char) (dps : Int) : Run (List Char) :=
  let hours : Bool := type = 'H' || type = 'h'
  let revunit : Nat := if hours then 86400 else 1296000
  let dp0 : Int := if hours then (if dps > 4 then 4 else dps) else (if dps > 3 then 3 else dps)
  let dp : Int := if dp0 < 0 then 0 else dp0
  let sign : Int := if turns ≥ 0 then 1 else -1
  let turns1 : ℚ := turns * sign
  (checked ⌊turns1⌋).bind fun whole_turns =>
  let turns2 : ℚ := turns1 - whole_turns
  let scale : Nat := 10 ^ dp.toNat
  let work : Nat := ⌊(1 / 2 : ℚ) + ((revunit * scale : Nat) : ℚ) * turns2⌋.toNat
  let right_of_dp : Nat := work - scale * (work / scale)
  let work1 : Nat := work / scale
  let isec : Nat := work1 - 60 * (work1 / 60)
  let work2 : Nat := work1 / 60
  let imin : Nat := work2 - 60 * (work2 / 60)
  (checked ((if hours then 24 else 360) * whole_turns)).bind fun t =>
  (checked ((work2 / 60 : Nat) + t)).bind fun iunits =>
  let out : List Char :=
    (if sign = -1 then ['-'] else []) ++
    fmtInt (if iunits > 99 then 0 else 2) iunits ++ [':'] ++
    fmtInt 2 imin ++ [':'] ++
    fmtInt 2 isec ++
    (if dp > 0 then ['.'] ++ fmtInt dp.toNat right_of_dp else [])
  if 20 ≤ out.length then .undefined else .ok out

/-! ## Payload buffer (main, lines 544-561) -/

/-- The array start of line 554: sixteen characters and the terminating NUL,
seventeen bytes in all (sizeof(start)). -/
def startSentinel : List Nat :=
  [65, 65, 65, 65, 32, 32, 32, 32, 32, 32, 32, 32, 65, 65, 65, 65, 0]

/-- The array end of line 555: sixteen characters and the terminating NUL. -/
def endSentinel : List Nat :=
  [90, 90, 90, 90, 32, 32, 32, 32, 32, 32, 32, 32, 90, 90, 90, 90, 0]

/-- The library call memcpy(buf+dst, src, sizeof(src)) on the contents of buf:
for each offset the byte stored there, or none where nothing was written. -/
def memcpy (m : Int → Option Nat) (dst : Int) (src : List Nat) : Int → Option Nat :=
  fun i => if dst ≤ i ∧ i < dst + src.length then src.get? (i - dst).toNat else m i

/-- The loop of lines 559-561: buf[i] = (char)(i%256) from i up to the stop
offset. The bound on the number of passes is the length of that range. -/
def fillLoop (m : Int → Option Nat) (i stop : Int) : Nat → Int → Option Nat
  | 0 => m
  | n + 1 =>
    if i < stop then
      fillLoop (fun k => if k = i then some (i.tmod 256).toNat else m k) (i + 1) stop n
    else m

/-- Lines 545-561: the contents of buf after the allocation, the two copies
of the sentinels and the fill loop. A negative bufsize is a request malloc
cannot meet (main returns 1); a copy that does not lie within the bufsize
allocated bytes is out of bounds. After the copies header_bytes + 17 and
bufsize - 17 are not negative, so the comparison of line 559, made in size_t,
is the comparison of the integers. -/
def fillBuf (header_bytes bufsize : Int) : Run (Int → Option Nat) :=
  if bufsize < 0 then .exited 1
  else if header_bytes < 0 ∨ bufsize < header_bytes + 17 then .undefined
  else
    let m1 := memcpy (fun _ => none) header_bytes startSentinel
    if bufsize - 17 < 0 then .undefined
    else
      let m2 := memcpy m1 (bufsize - 17) endSentinel
      .ok (fillLoop m2 (header_bytes + 17) (bufsize - 17) (bufsize - 17 - (header_bytes + 17)).toNat)

/-- The bytes the payload entry of iovect hands to the transport: bufsize
bytes from the start of buf (lines 590-591 and 598-599). -/
def payloadBytes (m : Int → Option Nat) (bufsize : Int) : List (Option Nat) :=
  (List.range bufsize.toNat).map fun (i : Nat) => m (i : Int)

/-! ## Contract of tcpsend in the words of its description -/

/-- An environment in which the next sendmsg reports 1000 bytes sent and the
one after it 1320. -/
def envShort : Env := ⟨[⟨1000, false⟩, ⟨1320, false⟩], [], [], []⟩

/-! ## Thread count, pacing delay and final report (main, lines 422-425, 533-541, 668-669) -/

/-- Lines 422-425: the test main makes on the thread count. -/
def threadCheck (numthread : Int) : Run Unit :=
  if numthread > MAXVDIFTHREADS then .exited 1 else .ok ()

/-- The options -udp 1500 -nthread 0. -/
def udp1500zero : Params := { udp1500 with numthread := 0 }

/-- Send-loop values for the options -udp 1500 -nthread 0: as cfgThree but
for the thread count. -/
def cfgZero : LoopCfg := ⟨0, -1, 25641, 8 + 32 + 1280, 3, 1⟩

/-- Loop entry for cfgZero: the loop of lines 504-523 has run no pass, and the
next 65 calls of sendmsg send the whole datagram of 1320 bytes. -/
def entryZero : Loop :=
  loopEntry (iovectInit ⟨true, 1280, true, 0, 0, 0⟩ 32 1280) (initHeaders 0 0 0)
    ⟨true, 1280, true, 0, 0, 0⟩ ⟨List.replicate 65 ⟨1320, false⟩, [], [], []⟩

/-- The event is a call of my_usleep. -/
def Event.isUsleep : Event → Bool
  | .my_usleep => true
  | _ => false

/-- Number of my_usleep calls made so far. -/
def usleepCount (s : Loop) : Nat := s.env.trace.countP Event.isUsleep

/-- The conversion of a double to int: the fraction is dropped. -/
def truncToInt (x : ℚ) : Int := if 0 ≤ x then ⌊x⌋ else ⌈x⌉

/-- Lines 534-538, run when rate > 0 in datagram mode: the value stored in
udp.usleep, in seconds. A zero packetsize makes the quotient of line 537 an
infinity, whose conversion to int is undefined; a zero packetspersec makes
the quotient of line 538 an infinity, for which none stands. -/
def pacingDelay (rate : ℚ) (udp : Udp) (header_bytes : Int) : Run (Option ℚ) :=
  (checked (udp.size - header_bytes)).bind fun packetsize =>
  if packetsize = 0 then .undefined
  else
    (checked (truncToInt (rate * 1000000 / 8 / packetsize))).bind fun packetspersec =>
    if packetspersec = 0 then .ok none
    else .ok (some (1 / (packetspersec : ℚ)))

/-- The options -udp 1500 -rate 0.0078125. -/
def udp1500slow : Params := { udp1500 with rate := 1 / 128 }

/-- Loop entry for the options -udp 1500 -drop 3 -rate 0.01: the delay
between packets is one second (see pacingDelay), the next three calls of
sendmsg send the whole datagram of 1320 bytes, and the clock reads 5, 7 and
9 seconds. -/
def entryPaced : Loop :=
  loopEntry (iovectInit ⟨true, 1280, true, 0, 1, 0⟩ 32 1280) (initHeaders 1 0 0)
    ⟨true, 1280, true, 0, 1, 0⟩ ⟨List.replicate 3 ⟨1320, false⟩, [5, 7, 9], [], []⟩

/-- Lines 668-669: the number printed as Sent ... packets, in datagram mode
only. -/
def reportedPackets (s : Loop) : Option Nat :=
  if s.udp.enabled then some s.udp.sequence else none

/-- The options -udp 1500 -drop 0. -/
def udp1500drop0 : Params := { udp1500 with drop := 0 }

/-- Send-loop values for the options -udp 1500 -drop 0. -/
def cfgDrop0 : LoopCfg := ⟨1, 0, 25641, 8 + 32 + 1280, 3, 1⟩

/-- The options -bandwidth 256. -/
def wideband : Params := { defaults with bandwidth := 256 }

/-! ## Copy to the caller of turns_to_string (lines 947-960) -/

/-- The terminating character of a C string. -/
def NUL : Char := Char.ofNat 0

/-- The loop of lines 954-957 from index i down to 0: the stores to str, in
order, each with its index. The array out holds the string followed by NUL. -/
def writesFrom (out : List Char) : Nat → List (Int × Char)
  | 0 => [(0, out.getD 0 NUL)]
  | i + 1 => (((i + 1 : Nat) : Int), out.getD (i + 1) NUL) :: writesFrom out i

/-- Lines 949-957: the length test, the cut of out at index nstr-1 and the
copy. A cut at a negative index is out of the array. -/
def strWrites (out : List Char) (nstr : Int) : Run (List (Int × Char)) :=
  let i : Int := out.length
  if i > nstr then
    if nstr - 1 < 0 then .undefined
    else .ok (writesFrom (out.take (nstr - 1).toNat) (nstr - 1).toNat)
  else .ok (writesFrom out out.length)

/-- The function turns_to_string (lines 870-960), seen as the stores it makes
to the array str of the caller. -/
def turns_to_string (turns : ℚ) (type : Char) (dps nstr : Int) : Run (List (Int × Char)) :=
  (turnsOut turns type dps).bind fun out => strWrites out nstr

/-! ## Auxiliary facts -/

theorem Run.bind_eq_ok {α β : Type} (r : Run α) (f : α → Run β) (b : β) :
    r.bind f = .ok b ↔ ∃ a, r = .ok a ∧ f a = .ok b := by
  cases r <;> simp [Run.bind]

theorem checked_eq_ok (x y : Int) : checked x = .ok y ↔ fitsInt x = true ∧ y = x := by
  unfold checked
  split
  · rename_i h
    constructor
    · intro e
      injection e with e
      exact ⟨h, e.symm⟩
    · rintro ⟨_, e⟩
      rw [e]
  · rename_i h
    constructor
    · intro e
      cases e
    · rintro ⟨h1, _⟩
      exact absurd h1 h

theorem fitsInt_iff (x : Int) : fitsInt x = true ↔ -2147483648 ≤ x ∧ x ≤ 2147483647 := by
  simp [fitsInt, INT_MIN, INT_MAX]

theorem lor_seven (m : Nat) : m ||| 7 = 8 * (m / 8) + 7 := by
  have h1 : m = 2 ^ 3 * (m / 8) + m % 8 := by omega
  have h2 : m % 8 < 2 ^ 3 := by omega
  have h3 : (m % 8) ||| 7 = 7 := by
    have : m % 8 < 8 := by omega
    interval_cases (m % 8) <;> rfl
  calc m ||| 7 = (2 ^ 3 * (m / 8) + m % 8) ||| 7 := by rw [← h1]
    _ = (2 ^ 3 * (m / 8) ||| m % 8) ||| 7 := by rw [Nat.mul_add_lt_is_or h2]
    _ = 2 ^ 3 * (m / 8) ||| 7 := by rw [Nat.lor_assoc, h3]
    _ = 2 ^ 3 * (m / 8) + 7 := by rw [← Nat.mul_add_lt_is_or (by norm_num)]
    _ = 8 * (m / 8) + 7 := by norm_num

theorem ldiff_seven (m : Nat) : Nat.ldiff m 7 = 8 * (m / 8) := by
  apply Nat.eq_of_testBit_eq
  intro i
  rw [Nat.testBit_ldiff]
  have h8 : (8 : Nat) = 2 ^ 3 := by norm_num
  rw [h8, Nat.testBit_mul_pow_two, ← Nat.shiftRight_eq_div_pow, Nat.testBit_shiftRight]
  by_cases h : 3 ≤ i
  · have : Nat.testBit 7 i = false := by
      apply Nat.testBit_lt_two_pow
      calc 7 < 2 ^ 3 := by norm_num
        _ ≤ 2 ^ i := Nat.pow_le_pow_right (by norm_num) h
    simp [h, this]
  · have hi : i < 3 := by omega
    interval_cases i <;> simp [Nat.testBit]

/-- The arithmetic form of maskLow3 is the bitwise and with the complement
of 7 on two's complement integers. -/
theorem maskLow3_eq_land (x : Int) : maskLow3 x = Int.land x (Int.not 7) := by
  have hn : Int.not 7 = Int.negSucc 7 := rfl
  rw [hn, maskLow3]
  cases x with
  | ofNat m =>
    show (m : Int) - (m : Int) % 8 = ((Nat.ldiff m 7 : Nat) : Int)
    rw [ldiff_seven]; omega
  | negSucc m =>
    show Int.negSucc m - Int.negSucc m % 8 = Int.negSucc (m ||| 7)
    rw [lor_seven]
    have e1 : Int.negSucc (8 * (m / 8) + 7) = -((8 * (m / 8) + 7 : Nat) : Int) - 1 := by
      rw [Int.negSucc_eq]; omega
    have e2 : Int.negSucc m = -(m : Int) - 1 := by rw [Int.negSucc_eq]; omega
    rw [e1, e2]
    omega

/-- The solver loop never raises the size. -/
theorem solveLoop_le (rate : Int) (fuel : Nat) (bufsize : Int) :
    solveLoop rate fuel bufsize ≤ bufsize := by
  induction fuel generalizing bufsize with
  | zero => simp [solveLoop]
  | succ n ih =>
    unfold solveLoop
    split
    · split
      · exact le_refl _
      · have := ih (bufsize - 8); omega
    · exact le_refl _

/-- With as many passes allowed as the start size, the solver loop ends by
its own exit test: the size is not positive, or it divides the rate. -/
theorem solveLoop_exit (rate : Int) (fuel : Nat) (bufsize : Int)
    (hfuel : bufsize ≤ 8 * (fuel : Int)) :
    solveLoop rate fuel bufsize ≤ 0 ∨
      (0 < solveLoop rate fuel bufsize ∧ rate.tmod (solveLoop rate fuel bufsize) = 0) := by
  induction fuel generalizing bufsize with
  | zero =>
    left
    simp only [solveLoop]
    simpa using hfuel
  | succ n ih =>
    unfold solveLoop
    split
    · rename_i hpos
      split
      · rename_i hdiv
        exact Or.inr ⟨hpos, hdiv⟩
      · exact ih (bufsize - 8) (by push_cast at hfuel; omega)
    · left; omega

/-- The solver ends by the exit test of its loop, not by the bound on the
number of passes: from a positive start size a result is negative or is a
positive size that divides the converted rate, and a run that goes on never
has size 0. -/
theorem solveFrameSize_exit (datarate bufsize b : Int) (hpos : 0 < bufsize)
    (h : solveFrameSize datarate bufsize = .ok b) :
    b < 0 ∨ (0 < b ∧ (datarate * 1000000).tmod b = 0) := by
  unfold solveFrameSize at h
  rw [if_pos hpos, Run.bind_eq_ok] at h
  obtain ⟨rate, hr, h⟩ := h
  unfold rateInt at hr
  rw [checked_eq_ok] at hr
  simp only at h
  split at h
  · cases h
  · rename_i hne
    injection h with h
    subst h
    have hfuel : bufsize ≤ 8 * (bufsize.toNat : Int) := by
      rw [Int.toNat_of_nonneg (le_of_lt hpos)]; omega
    rcases solveLoop_exit rate bufsize.toNat bufsize hfuel with h0 | h1
    · left
      omega
    · right
      rw [← hr.2]
      exact h1

/-! ## Transport sender: stream mode (C1) -/

/-- C1 (defect in the code): for one frame in stream mode, with the header
entry of 32 bytes and the payload entry of 8192 bytes of the default
configuration and a transport that accepts every byte offered, netsend
returns 0 after two tcpsend calls that both name the header entry: the
stream receives the 32 header bytes twice and no payload byte, not the
header followed by the payload. -/
theorem netsend_stream_sends_header_twice :
    setHeaderBase (iovectInit defaults.udp 32 8192) 0 0
      = [⟨.header 0, 32⟩, ⟨.payload, 8192⟩] ∧
    netsend 0 [⟨.header 0, 32⟩, ⟨.payload, 8192⟩] defaults.udp
        ⟨[⟨32, false⟩, ⟨32, false⟩], [], [], []⟩
      = .ok (0, defaults.udp,
          ⟨[], [],
           [.tcpsend (.header 0) 32, .send (.header 0) 0 32,
            .tcpsend (.header 0) 32, .send (.header 0) 0 32],
           [⟨.header 0, 0, 32⟩, ⟨.header 0, 0, 32⟩]⟩) ∧
    ([⟨.header 0, 0, 32⟩, ⟨.header 0, 0, 32⟩] : List Chunk)
      ≠ [⟨.header 0, 0, 32⟩, ⟨.payload, 0, 8192⟩] := by
  decide

/-! ## Frame-size solver (C2 to C5) -/

/-- C2 (defect in the code): for the default configuration (4 channels, 2 bits,
16 MHz, stream mode, frame size 9000, 32-byte header) the solver succeeds with
8192 bytes and framepersec becomes 3921, although (8192 - 32) * 8 does not
divide 256000000: the division of line 501 truncates 3921.57 and
3921 * (8192 - 32) * 8 is not the bit rate. -/
theorem framepersec_default_truncates :
    sizing defaults = .ok ⟨defaults.udp, -1, 256, 32, 8192, 3921⟩ ∧
    ¬ ((8192 - 32) * 8 ∣ (256 * 1000000 : Int)) ∧
    3921 * ((8192 - 32) * 8) ≠ (256 * 1000000 : Int) := by
  decide

/-- C3 (defect in the code): for bandwidth 16, 4 channels, 2 bits (256 Mbps)
and the default frame size 9000 the solver returns 8192 bytes, a multiple of
8 that divides 256000000 as a byte count, while 256000000 mod (8192 * 8) is
16384, not 0; the same holds for the payload without its 32 header bytes.
With frame size 100 in stream mode the solver returns 100, which is not a
multiple of 8. -/
theorem solver_default_not_bit_divisor :
    datarate 4 2 16 = .ok 256 ∧
    solveFrameSize 256 9000 = .ok 8192 ∧
    (8192 : Int) % 8 = 0 ∧
    (256 * 1000000 : Int) % 8192 = 0 ∧
    (256 * 1000000 : Int) % (8192 * 8) = 16384 ∧
    (256 * 1000000 : Int) % ((8192 - 32) * 8) ≠ 0 ∧
    solveFrameSize 256 100 = .ok 100 ∧
    (100 : Int) % 8 ≠ 0 := by
  decide

/-- C4 (defect in the code): the failure exit of the solver tests for a size
of exactly 0. With -udp 44 the start size is 8 - 32 = -24, the loop is not
entered and main goes on with bufsize -24; in stream mode a frame size of 3
steps to -5 and goes on, and a frame size of 12 goes on with 4. Only a loop
that ends on exactly 0 exits. -/
theorem solver_goes_on_with_bad_size :
    (sizing udp44).bind (fun s => .ok s.bufsize) = .ok (-24) ∧
    solveFrameSize 256 (-24) = .ok (-24) ∧
    solveFrameSize 256 3 = .ok (-5) ∧
    solveFrameSize 256 12 = .ok 4 ∧
    solveFrameSize 256 0 = .exited 1 := by
  decide


theorem udpReserve_ok (udp : Udp) (drop : Int) (u : Udp) (d : Int) (he : udp.enabled = true)
    (h : udpReserve udp drop = .ok (u, d)) :
    u.enabled = true ∧ u.vtp = udp.vtp ∧ u.sequence = 0 ∧ d = drop ∧ 0 < u.size ∧
      u.size % 8 = 0 ∧ u.size + 20 + 8 + (if udp.vtp then 8 else 0) ≤ udp.size := by
  unfold udpReserve at h
  rw [if_pos he, Run.bind_eq_ok] at h
  obtain ⟨s1, h1, h⟩ := h
  rw [Run.bind_eq_ok] at h
  obtain ⟨s2, h2, h⟩ := h
  rw [Run.bind_eq_ok] at h
  obtain ⟨s3, h3, h⟩ := h
  rw [checked_eq_ok] at h1 h2
  have h3' : s3 = s2 - (if udp.vtp then 8 else 0) := by
    split at h3
    · rename_i hv
      rw [checked_eq_ok] at h3; rw [if_pos hv]; exact h3.2
    · rename_i hv
      injection h3 with h3; rw [if_neg hv]; omega
  simp only at h
  split at h
  · cases h
  · rename_i hpos
    injection h with h
    injection h with hu hd
    subst hu
    have hm : maskLow3 s3 = s3 - s3 % 8 := rfl
    refine ⟨he, rfl, rfl, hd.symm, ?_, ?_, ?_⟩
    · show 0 < maskLow3 s3
      omega
    · show maskLow3 s3 % 8 = 0
      omega
    · show maskLow3 s3 + 20 + 8 + (if udp.vtp then 8 else 0) ≤ udp.size
      rw [hm, h3', h2.2, h1.2]
      split <;> omega

theorem divmod_1461 (T K R : Int) (h : T = 1461 * K + R) (h0 : 0 ≤ R) (h1 : R < 1461) :
    T % 1461 = R ∧ T / 1461 = K := by omega

theorem div_146097 (T K R : Int) (h : T = 146097 * K + R) (h0 : 0 ≤ R) (h1 : R < 146097) :
    T / 146097 = K := by omega

/-- Month and day are recovered from the day number within the year that
starts on 1 March. -/
theorem month_step (m d : Int) (hm0 : 0 ≤ m) (hm11 : m ≤ 11) (hd1 : 1 ≤ d)
    (hlen : d ≤ 30 ∨ (d = 31 ∧ (m = 0 ∨ m = 2 ∨ m = 4 ∨ m = 5 ∨ m = 7 ∨ m = 9 ∨ m = 10)))
    (hfeb : m = 11 → d ≤ 29) :
    (10 * ((153 * m + 2) / 5 + d - 1) + 5) / 306 = m ∧
    ((10 * ((153 * m + 2) / 5 + d - 1) + 5) % 306) / 10 + 1 = d := by
  interval_cases m <;> omega

/-- The arithmetic of jd2cal applied to the day number cal2mjd forms, for a
year Y that starts on 1 March and the month m counted from March. -/
theorem jd_chain (Y m d c y x1 x2 x3 jd : Int) (hY : 0 ≤ Y)
    (hm0 : 0 ≤ m) (hm11 : m ≤ 11) (hd1 : 1 ≤ d)
    (hlen : d ≤ 30 ∨ (d = 31 ∧ (m = 0 ∨ m = 2 ∨ m = 4 ∨ m = 5 ∨ m = 7 ∨ m = 9 ∨ m = 10)))
    (hfeb : m = 11 → d ≤ 28 ∨ (d = 29 ∧ (Y + 1) % 4 = 0 ∧ ((Y + 1) % 100 ≠ 0 ∨ (Y + 1) % 400 = 0)))
    (hc : c = Y / 100) (hy : y = Y - c * 100)
    (hx1 : x1 = (146097 * c) / 4) (hx2 : x2 = (1461 * y) / 4) (hx3 : x3 = (153 * m + 2) / 5)
    (hjd : jd = x1 + x2 + x3 + d - 678882 + 2400001) :
    0 ≤ 4 * jd - 17918 ∧
    (4 * jd - 17918) / 146097 = c + 47 ∧
    ((6 * (c + 47)) / 4 + 1) / 2 = c - c / 4 + 35 ∧
    0 ≤ 4 * (jd + (c - c / 4 + 35) - 37) - 237 ∧
    (4 * (jd + (c - c / 4 + 35) - 37) - 237) % 1461 / 4 = x3 + d - 1 ∧
    4 * (jd + (c - c / 4 + 35) - 37) / 1461 - 4712 = (if m ≤ 9 then Y else Y + 1) ∧
    0 ≤ x3 + d - 1 ∧ x3 + d - 1 ≤ 365 ∧
    (10 * (x3 + d - 1) + 5) / 306 = m ∧
    ((10 * (x3 + d - 1) + 5) % 306) / 10 + 1 = d ∧
    jd = 36524 * c + c / 4 + 365 * y + y / 4 + (x3 + d - 1) + 1721120 := by
  have hc0 : 0 ≤ c := by omega
  have hy0 : 0 ≤ y ∧ y ≤ 99 := by omega
  have hx1' : x1 = 36524 * c + c / 4 := by omega
  have hx2' : x2 = 365 * y + y / 4 := by omega
  have hs : 0 ≤ x3 + d - 1 ∧ x3 + d - 1 ≤ 365 := by omega
  have hs' : x3 + d - 1 = 365 → (Y + 1) % 4 = 0 ∧ ((Y + 1) % 100 ≠ 0 ∨ (Y + 1) % 400 = 0) := by
    omega
  have hsm : m ≤ 9 → x3 + d - 1 ≤ 305 := by omega
  have hsm' : 10 ≤ m → 306 ≤ x3 + d - 1 := by omega
  have hub : 4 * (x2 + x3 + d - 1) < 146094 + c % 4 := by omega
  have ho : (4 * jd - 17918) / 146097 = c + 47 :=
    div_146097 _ (c + 47) (4 * (x2 + x3 + d - 1) + 3 - c % 4) (by omega) (by omega) (by omega)
  have hk : ((6 * (c + 47)) / 4 + 1) / 2 = c - c / 4 + 35 := by omega
  have ht1 : 4 * (jd + (c - c / 4 + 35) - 37)
      = 1461 * (100 * c + 4712) + 4 * (x2 + x3 + d - 1) + 240 := by omega
  have hyr : y % 4 = 3 ∨ x3 + d - 1 ≤ 364 := by omega
  have hR : 0 ≤ 4 * (x3 + d - 1) + 3 - y % 4 ∧ 4 * (x3 + d - 1) + 3 - y % 4 < 1461 := by omega
  have hT : 4 * (jd + (c - c / 4 + 35) - 37) - 237
      = 1461 * (100 * c + 4712 + y) + (4 * (x3 + d - 1) + 3 - y % 4) := by omega
  have hmod := (divmod_1461 _ _ _ hT hR.1 hR.2).1
  have hg : (4 * (jd + (c - c / 4 + 35) - 37) - 237) % 1461 / 4 = x3 + d - 1 := by
    rw [hmod]; omega
  have hms := month_step m d hm0 hm11 hd1 hlen (by omega)
  rw [← hx3] at hms
  refine ⟨by omega, ho, hk, by omega, hg, ?_, hs.1, hs.2, hms.1, hms.2, by omega⟩
  clear hms hmod hg hk ho
  split
  · have h : 4 * (jd + (c - c / 4 + 35) - 37)
        = 1461 * (Y + 4712) + (4 * (x3 + d - 1) + 240 - y % 4) := by omega
    have := (divmod_1461 _ _ _ h (by omega) (by omega)).2
    omega
  · have h : 4 * (jd + (c - c / 4 + 35) - 37)
        = 1461 * (Y + 1 + 4712) + (4 * (x3 + d - 1) + 240 - y % 4 - 1461) := by omega
    have := (divmod_1461 _ _ _ h (by omega) (by omega)).2
    omega

theorem leap_of_nonneg (year : Int) (hy : 0 ≤ year) :
    leap year = if (year % 4 = 0 ∧ year % 100 ≠ 0) ∨ year % 400 = 0 then 1 else 0 := by
  unfold leap
  rw [Int.tmod_eq_emod hy (by norm_num), Int.tmod_eq_emod hy (by norm_num),
    Int.tmod_eq_emod hy (by norm_num)]

/-- Length of a month as the adjusted table gives it. -/
theorem daysOf_getD (month year : Int) (hm1 : 1 ≤ month) (hm12 : month ≤ 12) (hy : 0 ≤ year) :
    (daysOf year).getD (month - 1).toNat 0 =
      if month = 2 then
        (if (year % 4 = 0 ∧ year % 100 ≠ 0) ∨ year % 400 = 0 then 29 else 28)
      else if month = 4 ∨ month = 6 ∨ month = 9 ∨ month = 11 then 30 else 31 := by
  by_cases h2 : month = 2
  · subst h2
    show (if leap year ≠ 0 then (29 : Int) else 28) = _
    rw [leap_of_nonneg year hy, if_pos rfl]
    by_cases h : (year % 4 = 0 ∧ year % 100 ≠ 0) ∨ year % 400 = 0
    · rw [if_pos h, if_pos h]; simp
    · rw [if_neg h, if_neg h]; simp
  · rw [if_neg h2]
    have hm : month = 1 ∨ month = 3 ∨ month = 4 ∨ month = 5 ∨ month = 6 ∨ month = 7 ∨
        month = 8 ∨ month = 9 ∨ month = 10 ∨ month = 11 ∨ month = 12 := by omega
    rcases hm with h | h | h | h | h | h | h | h | h | h | h <;> subst h <;> rfl

/-- What a valid date of a year from 0 on satisfies, in plain inequalities. -/
theorem validDate_bounds (day month year : Int) (hy : 0 ≤ year)
    (hv : validDate day month year) :
    1 ≤ month ∧ month ≤ 12 ∧ 1 ≤ day ∧
    (day ≤ 30 ∨ (day = 31 ∧ (month = 1 ∨ month = 3 ∨ month = 5 ∨ month = 7 ∨ month = 8 ∨
      month = 10 ∨ month = 12))) ∧
    (month = 2 → day ≤ 28 ∨
      (day = 29 ∧ year % 4 = 0 ∧ (year % 100 ≠ 0 ∨ year % 400 = 0))) := by
  obtain ⟨hm1, hm12, hd1, hd⟩ := hv
  rw [daysOf_getD month year hm1 hm12 hy] at hd
  refine ⟨hm1, hm12, hd1, ?_, ?_⟩
  · split at hd
    · split at hd <;> omega
    · split at hd <;> omega
  · intro h2
    rw [if_pos h2] at hd
    split at hd
    · rename_i h
      omega
    · omega


theorem tdiv_pos_eq (a b : Int) (ha : 0 ≤ a) (hb : 0 ≤ b) : a.tdiv b = a / b :=
  Int.tdiv_eq_ediv ha hb

theorem tmod_pos_eq (a b : Int) (ha : 0 ≤ a) (hb : 0 ≤ b) : a.tmod b = a % b :=
  Int.tmod_eq_emod ha hb

/-- The value of cal2mjd for a date from 1 March of year 0 on, with the
divisions written as floor divisions; m and Y are the month counted from
March and the year that starts on 1 March. -/
theorem cal2mjd_value (day month year m Y : Int) (hm1 : 1 ≤ month) (hm12 : month ≤ 12)
    (hd1 : 1 ≤ day) (hd31 : day ≤ 31)
    (hm : m = if month ≤ 2 then month + 9 else month - 3)
    (hY : Y = if month ≤ 2 then year - 1 else year)
    (hlo : 0 ≤ Y) (hhi : Y ≤ 1469999) (hyear : year ≤ 1470000) :
    cal2mjd day month year =
      .ok (146097 * (Y / 100) / 4 + 1461 * (Y - Y / 100 * 100) / 4 + (153 * m + 2) / 5
        + day - 678882) := by
  unfold cal2mjd
  simp only [← hm, ← hY]
  have hm0 : 0 ≤ m ∧ m ≤ 11 := by rw [hm]; split <;> omega
  have e1 : Y.tdiv 100 = Y / 100 := tdiv_pos_eq _ _ hlo (by norm_num)
  rw [e1]
  have e2 : (146097 * (Y / 100)).tdiv 4 = 146097 * (Y / 100) / 4 :=
    tdiv_pos_eq _ _ (by omega) (by norm_num)
  have e3 : (1461 * (Y - Y / 100 * 100)).tdiv 4 = 1461 * (Y - Y / 100 * 100) / 4 :=
    tdiv_pos_eq _ _ (by omega) (by norm_num)
  have e4 : (153 * m + 2).tdiv 5 = (153 * m + 2) / 5 :=
    tdiv_pos_eq _ _ (by omega) (by norm_num)
  rw [e2, e3, e4]
  rw [if_pos]
  simp only [List.all_cons, List.all_nil, Bool.and_true, Bool.and_eq_true, fitsInt_iff]
  have hyear0 : 0 ≤ year := by rw [hY] at hlo; split at hlo <;> omega
  refine ⟨?_, ?_, ?_, ?_, ?_, ?_, ?_, ?_, ?_, ?_, ?_, ?_, ?_, ?_, ?_⟩ <;> omega


theorem century_days (Y : Int) (hY : 0 ≤ Y) :
    146097 * (Y / 100) / 4 + 1461 * (Y - Y / 100 * 100) / 4
      = 365 * Y + Y / 4 - Y / 100 + Y / 400 := by
  have h1 : 146097 * (Y / 100) / 4 = 36524 * (Y / 100) + Y / 100 / 4 := by omega
  have h2 : 1461 * (Y - Y / 100 * 100) / 4
      = 365 * (Y - Y / 100 * 100) + (Y - Y / 100 * 100) / 4 := by omega
  have h3 : Y / 100 / 4 = Y / 400 := by omega
  have h4 : (Y - Y / 100 * 100) / 4 = Y / 4 - 25 * (Y / 100) := by omega
  rw [h1, h2, h3, h4]
  ring

/-- The date jd2cal gives for the day number of day d of month m (counted
from March) of the year Y that starts on 1 March. -/
theorem jd2cal_value (Y m d jd : Int) (hY : 0 ≤ Y) (hhi : jd ≤ 536859924)
    (hm0 : 0 ≤ m) (hm11 : m ≤ 11) (hd1 : 1 ≤ d)
    (hlen : d ≤ 30 ∨ (d = 31 ∧ (m = 0 ∨ m = 2 ∨ m = 4 ∨ m = 5 ∨ m = 7 ∨ m = 9 ∨ m = 10)))
    (hfeb : m = 11 → d ≤ 28 ∨ (d = 29 ∧ (Y + 1) % 4 = 0 ∧ ((Y + 1) % 100 ≠ 0 ∨ (Y + 1) % 400 = 0)))
    (hjd : jd = 146097 * (Y / 100) / 4 + 1461 * (Y - Y / 100 * 100) / 4 + (153 * m + 2) / 5
      + d - 678882 + 2400001) :
    jd2cal jd = .ok (d, if m ≤ 9 then m + 3 else m - 9, if m ≤ 9 then Y else Y + 1) := by
  obtain ⟨h0, ho, hk, h237, hg, hyr, hs0, hs1, hmo, hda, hjd'⟩ :=
    jd_chain Y m d (Y / 100) (Y - Y / 100 * 100) _ _ _ jd hY hm0 hm11 hd1 hlen hfeb rfl rfl
      rfl rfl rfl hjd
  have hc0 : 0 ≤ Y / 100 := by omega
  unfold jd2cal
  simp only []
  have e1 : (4 * jd - 17918).tdiv 146097 = Y / 100 + 47 := by
    rw [tdiv_pos_eq _ _ h0 (by norm_num)]; exact ho
  rw [e1]
  have e2 : ((6 * (Y / 100 + 47)).tdiv 4 + 1).tdiv 2 = Y / 100 - Y / 100 / 4 + 35 := by
    have e2a : (6 * (Y / 100 + 47)).tdiv 4 = 6 * (Y / 100 + 47) / 4 :=
      tdiv_pos_eq _ _ (by omega) (by norm_num)
    rw [e2a, tdiv_pos_eq _ _ (by omega) (by norm_num)]
    exact hk
  rw [e2]
  have e3 : ((4 * (jd + (Y / 100 - Y / 100 / 4 + 35) - 37) - 237).tmod 1461).tdiv 4
      = (153 * m + 2) / 5 + d - 1 := by
    rw [tmod_pos_eq _ _ h237 (by norm_num),
      tdiv_pos_eq _ _ (Int.emod_nonneg _ (by norm_num)) (by norm_num)]
    exact hg
  rw [e3]
  have e4 : (4 * (jd + (Y / 100 - Y / 100 / 4 + 35) - 37)).tdiv 1461 - 4712
      = if m ≤ 9 then Y else Y + 1 := by
    rw [tdiv_pos_eq _ _ (by omega) (by norm_num)]; exact hyr
  rw [e4]
  have e5 : (10 * ((153 * m + 2) / 5 + d - 1) + 5).tdiv 306 = m := by
    rw [tdiv_pos_eq _ _ (by omega) (by norm_num)]; exact hmo
  rw [e5]
  have e6 : (m + 2).tmod 12 + 1 = if m ≤ 9 then m + 3 else m - 9 := by
    rw [tmod_pos_eq _ _ (by omega) (by norm_num)]
    split <;> omega
  rw [e6]
  have e7 : ((10 * ((153 * m + 2) / 5 + d - 1) + 5).tmod 306).tdiv 10 + 1 = d := by
    rw [tmod_pos_eq _ _ (by omega) (by norm_num),
      tdiv_pos_eq _ _ (Int.emod_nonneg _ (by norm_num)) (by norm_num)]
    exact hda
  rw [e7]
  rw [if_pos]
  simp only [List.all_cons, List.all_nil, Bool.and_true, Bool.and_eq_true, fitsInt_iff]
  have hif1 : (if m ≤ 9 then m + 3 else m - 9) ≤ 12 ∧ 1 ≤ (if m ≤ 9 then m + 3 else m - 9) := by
    split <;> omega
  have hcd := century_days Y hY
  have hYmax : Y ≤ 1465160 := by omega
  have hif2 : (if m ≤ 9 then Y else Y + 1) ≤ 1465161 ∧ 0 ≤ (if m ≤ 9 then Y else Y + 1) := by
    split <;> omega
  have hd31 : d ≤ 31 := by omega
  have hq : 0 ≤ (6 * (Y / 100 + 47)).tdiv 4 ∧ (6 * (Y / 100 + 47)).tdiv 4 ≤ 6 * (Y / 100 + 47) := by
    rw [tdiv_pos_eq _ _ (by omega) (by norm_num)]; omega
  refine ⟨?_, ?_, ?_, ?_, ?_, ?_, ?_, ?_, ?_, ?_, ?_, ?_, ?_, ?_, ?_⟩ <;> omega

theorem fmod1_intCast (v : Int) : fmod1 (v : ℚ) = 0 := by
  unfold fmod1
  split <;> simp

/-- On a whole day number mjd2cal is jd2cal of the number plus 2400001, with
ut = 0. -/
theorem mjd2cal_intCast (v : Int) :
    mjd2cal (v : ℚ) = (jd2cal (v + 2400001)).bind fun d => .ok (d.1, d.2.1, d.2.2, 0) := by
  have h2 : ⌊(v : ℚ) + 2400001⌋ = v + 2400001 := by
    have : ((v : ℚ) + 2400001) = ((v + 2400001 : Int) : ℚ) := by push_cast; ring
    rw [this, Int.floor_intCast]
  simp only [mjd2cal, fmod1_intCast, lt_irrefl, if_false, h2]

/-- C6 (as amended): for every valid date from 1 March of year 0 to 12 June
of year 1465160, cal2mjd returns a day number and mjd2cal of that number
returns the same day, month and year with ut = 0. -/
theorem cal_roundtrip (day month year : Int) (hv : validDate day month year)
    (hlo : 0 < year ∨ (year = 0 ∧ 3 ≤ month))
    (hhi : year < 1465160 ∨ (year = 1465160 ∧ (month < 6 ∨ (month = 6 ∧ day ≤ 12)))) :
    ∃ v, cal2mjd day month year = .ok v ∧ mjd2cal (v : ℚ) = .ok (day, month, year, 0) := by
  have hy0 : 0 ≤ year := by omega
  obtain ⟨hm1, hm12, hd1, hlen, hfeb⟩ := validDate_bounds day month year hy0 hv
  have hd31 : day ≤ 31 := by omega
  by_cases h : month ≤ 2
  · refine ⟨_, cal2mjd_value day month year (month + 9) (year - 1) hm1 hm12 hd1 hd31
      (if_pos h).symm (if_pos h).symm (by omega) (by omega) (by omega), ?_⟩
    have hcd := century_days (year - 1) (by omega)
    rw [mjd2cal_intCast, jd2cal_value (year - 1) (month + 9) day _ (by omega) (by omega)
      (by omega) (by omega) hd1 (by omega) ?_ rfl]
    · simp only [Run.bind]
      rw [if_neg (by omega), if_neg (by omega)]
      have e1 : month + 9 - 9 = month := by omega
      have e2 : year - 1 + 1 = year := by omega
      rw [e1, e2]
    · intro h11
      have := hfeb (by omega)
      omega
  · refine ⟨_, cal2mjd_value day month year (month - 3) year hm1 hm12 hd1 hd31
      (if_neg h).symm (if_neg h).symm (by omega) (by omega) (by omega), ?_⟩
    have hcd := century_days year (by omega)
    rw [mjd2cal_intCast, jd2cal_value year (month - 3) day _ (by omega) (by omega)
      (by omega) (by omega) hd1 (by omega) (by omega) rfl]
    simp only [Run.bind]
    rw [if_pos (by omega), if_pos (by omega)]
    have e1 : month - 3 + 3 = month := by omega
    rw [e1]

/-- The leap day 29 February 2024 survives the round trip. -/
theorem cal_roundtrip_witness :
    validDate 29 2 2024 ∧
    ∃ v, cal2mjd 29 2 2024 = .ok v ∧ mjd2cal (v : ℚ) = .ok (29, 2, 2024, 0) :=
  ⟨by decide, cal_roundtrip 29 2 2024 (by decide) (by decide) (by decide)⟩

/-- C6 (as stated, refuted): 1 January of year 0 is a valid date, cal2mjd
gives -678940 for it, and mjd2cal of -678940 returns 2 January of year 0.
At the far end, 13 June 1465160 is a valid date whose day number mjd2cal
cannot process within 32 bits. -/
theorem cal_roundtrip_fails :
    validDate 1 1 0 ∧ cal2mjd 1 1 0 = .ok (-678940) ∧
    mjd2cal ((-678940 : Int) : ℚ) = .ok (2, 1, 0, 0) ∧
    validDate 13 6 1465160 ∧ cal2mjd 13 6 1465160 = .ok 534459924 ∧
    mjd2cal ((534459924 : Int) : ℚ) = .undefined := by
  refine ⟨by decide, by decide, ?_, by decide, by decide, ?_⟩
  · rw [mjd2cal_intCast]; decide
  · rw [mjd2cal_intCast]; decide

/-- C7 (as amended): cal2mjd(17, 11, 1858) is 0, and for every valid date from
1 March of year 0 to 28 February of year 1470000 the value for the following
calendar day is the value for the date plus 1. -/
theorem cal2mjd_next_day (day month year : Int) (hv : validDate day month year)
    (hlo : 0 < year ∨ (year = 0 ∧ 3 ≤ month))
    (hhi : year < 1470000 ∨ (year = 1470000 ∧ (month = 1 ∨ (month = 2 ∧ day ≤ 28)))) :
    cal2mjd 17 11 1858 = .ok 0 ∧
    ∃ v, cal2mjd day month year = .ok v ∧
      cal2mjd (nextDay day month year).1 (nextDay day month year).2.1
        (nextDay day month year).2.2 = .ok (v + 1) := by
  refine ⟨by decide, ?_⟩
  have hy0 : 0 ≤ year := by omega
  obtain ⟨hm1, hm12, hd1, hd⟩ := hv
  rw [daysOf_getD month year hm1 hm12 hy0] at hd
  have hd31 : day ≤ 31 := by
    split at hd
    · split at hd <;> omega
    · split at hd <;> omega
  have hval := cal2mjd_value day month year _ _ hm1 hm12 hd1 hd31 rfl rfl
    (by split <;> omega) (by split <;> omega) (by omega)
  refine ⟨_, hval, ?_⟩
  unfold nextDay
  rw [daysOf_getD month year hm1 hm12 hy0]
  by_cases hlt : day < (if month = 2 then
        (if (year % 4 = 0 ∧ year % 100 ≠ 0) ∨ year % 400 = 0 then 29 else 28)
      else if month = 4 ∨ month = 6 ∨ month = 9 ∨ month = 11 then 30 else 31)
  · rw [if_pos hlt]
    have hd30 : day + 1 ≤ 31 := by
      split at hlt
      · split at hlt <;> omega
      · split at hlt <;> omega
    rw [cal2mjd_value (day + 1) month year _ _ hm1 hm12 (by omega) hd30 rfl rfl
      (by split <;> omega) (by split <;> omega) (by omega)]
    congr 1
    omega
  · rw [if_neg hlt]
    have hday : day = (if month = 2 then
        (if (year % 4 = 0 ∧ year % 100 ≠ 0) ∨ year % 400 = 0 then 29 else 28)
      else if month = 4 ∨ month = 6 ∨ month = 9 ∨ month = 11 then 30 else 31) := by omega
    by_cases h12 : month < 12
    · rw [if_pos h12]
      show cal2mjd 1 (month + 1) year = _
      rw [cal2mjd_value 1 (month + 1) year _ _ (by omega) (by omega) (by omega) (by omega)
        rfl rfl (by split <;> omega) (by split <;> omega) (by omega)]
      congr 1
      by_cases h2 : month = 2
      · subst h2
        rw [if_pos rfl] at hday
        simp only [show ¬ ((2 : Int) + 1 ≤ 2) by omega, show ((2 : Int) ≤ 2) by omega, if_true,
          if_false]
        have hyp : 0 < year := by omega
        rw [century_days year hy0, century_days (year - 1) (by omega)]
        split at hday <;> omega
      · rw [if_neg h2] at hday
        have hm : month = 1 ∨ month = 3 ∨ month = 4 ∨ month = 5 ∨ month = 6 ∨ month = 7 ∨
          month = 8 ∨ month = 9 ∨ month = 10 ∨ month = 11 := by omega
        rcases hm with h | h | h | h | h | h | h | h | h | h <;> subst h <;>
          simp at hday <;> subst hday <;> simp <;> omega
    · rw [if_neg h12]
      have hm : month = 12 := by omega
      subst hm
      simp at hday
      subst hday
      show cal2mjd 1 1 (year + 1) = _
      rw [cal2mjd_value 1 1 (year + 1) _ _ (by omega) (by omega) (by omega) (by omega)
        rfl rfl (by simp; omega) (by simp; omega) (by omega)]
      congr 1
      simp
      omega

/-- The day after 28 February 1900, not a leap year, is 1 March 1900, one day
number on. -/
theorem cal2mjd_next_day_witness :
    validDate 28 2 1900 ∧ nextDay 28 2 1900 = (1, 3, 1900) ∧
    ∃ v, cal2mjd 28 2 1900 = .ok v ∧
      cal2mjd (nextDay 28 2 1900).1 (nextDay 28 2 1900).2.1 (nextDay 28 2 1900).2.2
        = .ok (v + 1) :=
  ⟨by decide, by decide, (cal2mjd_next_day 28 2 1900 (by decide) (by decide) (by decide)).2⟩

/-- C7 (as stated, refuted): 29 February of year 0 is a valid date, the
following day is 1 March of year 0, and cal2mjd gives -678881 for both. At
the far end, 29 February 1470000 is valid and has a value, while the value
of the following day, 1 March 1470000, overflows. -/
theorem cal2mjd_next_day_fails :
    validDate 29 2 0 ∧ nextDay 29 2 0 = (1, 3, 0) ∧
    cal2mjd 29 2 0 = .ok (-678881) ∧ cal2mjd 1 3 0 = .ok (-678881) ∧
    validDate 29 2 1470000 ∧ nextDay 29 2 1470000 = (1, 3, 1470000) ∧
    cal2mjd 29 2 1470000 = .ok 536227593 ∧ cal2mjd 1 3 1470000 = .undefined := by
  decide

/-- C8 (defect in the code): for mjd = -1/2 the day fraction is 1/2 and the
whole day is floor(-1/2) = -1, which is 16 November 1858; mjd2cal returns
15 November 1858, the date of day -2, because line 822 lowers mjd by one
before line 825 takes the floor. -/
theorem mjd2cal_negative_fraction_off_by_one :
    mjd2cal (-1 / 2) = .ok (15, 11, 1858, 1 / 2) ∧
    ⌊(-1 / 2 : ℚ)⌋ = -1 ∧
    cal2mjd 15 11 1858 = .ok (-2) ∧
    cal2mjd 16 11 1858 = .ok (-1) := by
  refine ⟨?_, by norm_num, by decide, by decide⟩
  have h1 : fmod1 (-1 / 2) = -1 / 2 := by norm_num [fmod1]
  have h2 : ⌊(-1 / 2 : ℚ) - 1 + 2400001⌋ = 2399999 := by norm_num
  have h3 : jd2cal 2399999 = .ok (15, 11, 1858) := by decide
  have h4 : (-1 / 2 : ℚ) + 1 = 1 / 2 := by norm_num
  simp only [mjd2cal, h1]
  rw [if_pos (by norm_num), if_pos (by norm_num), h2, h3, h4]
  rfl


/-! ## Send loop (C9 and C10) -/

/-- The loop values cfgDrop3 are what main computes for -udp 1500 -drop 3. -/
theorem cfgDrop3_eq :
    (sizing udp1500drop3).bind (fun z => .ok (loopCfg udp1500drop3 z)) = .ok cfgDrop3 := by
  decide

/-- The loop values cfgThree are what main computes for -udp 1500 -nthread 3. -/
theorem cfgThree_eq :
    (sizing udp1500three).bind (fun z => .ok (loopCfg udp1500three z)) = .ok cfgThree := by
  decide

theorem succ_divmod (k n : Nat) (hn : 0 < n) :
    if k % n + 1 = n then (k + 1) % n = 0 ∧ (k + 1) / n = k / n + 1
    else (k + 1) % n = k % n + 1 ∧ (k + 1) / n = k / n := by
  have hk := Nat.div_add_mod k n
  have hr := Nat.mod_lt k hn
  split
  · rename_i h
    have e : k + 1 = n * (k / n + 1) := by rw [Nat.mul_add, Nat.mul_one]; omega
    rw [e]
    exact ⟨Nat.mul_mod_right _ _, Nat.mul_div_cancel_left _ hn⟩
  · rename_i h
    have hlt : k % n + 1 < n := by omega
    have e : k + 1 = n * (k / n) + (k % n + 1) := by omega
    rw [e]
    constructor
    · rw [Nat.mul_add_mod, Nat.mod_eq_of_lt hlt]
    · rw [Nat.mul_add_div hn, Nat.div_eq_of_lt hlt, Nat.add_zero]


theorem my_usleep_ok (udp udp1 : Udp) (env env1 : Env) (h : my_usleep udp env = .ok (udp1, env1)) :
    udp1.enabled = udp.enabled ∧ udp1.sequence = udp.sequence ∧ udp1.vtp = udp.vtp ∧
      env1.trace = env.trace ++ [.my_usleep] := by
  unfold my_usleep at h
  split at h
  · cases h
  · rw [Run.bind_eq_ok] at h
    obtain ⟨r, _, h⟩ := h
    injection h with h
    injection h with h1 h2
    subst h1 h2
    exact ⟨rfl, rfl, rfl, rfl⟩

theorem netsend_udp_fields (n : Nat) (iov : List IoVec) (udp udp1 : Udp) (env env1 : Env)
    (st : Int) (h : netsend n iov udp env = .ok (st, udp1, env1)) :
    udp1.enabled = udp.enabled ∧ udp1.sequence = udp.sequence := by
  unfold netsend at h
  split at h
  · split at h
    · cases h
    · split at h
      · cases h
      simp only at h
      split at h
      · cases h
      · split at h
        · injection h with h; injection h with _ h; injection h with h _
          subst h; exact ⟨rfl, rfl⟩
        · split at h
          · injection h with h; injection h with _ h; injection h with h _
            subst h; exact ⟨rfl, rfl⟩
          · split at h
            · rw [Run.bind_eq_ok] at h
              obtain ⟨⟨u, e⟩, hu, h⟩ := h
              injection h with h; injection h with _ h; injection h with h _
              subst h
              have := my_usleep_ok _ _ _ _ hu
              exact ⟨this.1, this.2.1⟩
            · injection h with h; injection h with _ h; injection h with h _
              subst h; exact ⟨rfl, rfl⟩
  · split at h
    · cases h
    · rw [Run.bind_eq_ok] at h
      obtain ⟨r1, _, h⟩ := h
      split at h
      · injection h with h; injection h with _ h; injection h with h _
        subst h; exact ⟨rfl, rfl⟩
      · rw [Run.bind_eq_ok] at h
        obtain ⟨r2, _, h⟩ := h
        split at h
        · injection h with h; injection h with _ h; injection h with h _
          subst h; exact ⟨rfl, rfl⟩
        · injection h with h; injection h with _ h; injection h with h _
          subst h; exact ⟨rfl, rfl⟩

theorem netsend_datagram_trace (n : Nat) (iov : List IoVec) (udp udp1 : Udp) (env env1 : Env)
    (st : Int) (he : udp.enabled = true) (h : netsend n iov udp env = .ok (st, udp1, env1)) :
    env1.trace.countP Event.isSendmsg = env.trace.countP Event.isSendmsg + 1 := by
  unfold netsend at h
  rw [if_pos he] at h
  split at h
  · cases h
  · split at h
    · cases h
    simp only at h
    split at h
    · cases h
    · split at h
      · injection h with h; injection h with _ h; injection h with _ h
        subst h; simp [List.countP_append, Event.isSendmsg]
      · split at h
        · injection h with h; injection h with _ h; injection h with _ h
          subst h; simp [List.countP_append, Event.isSendmsg]
        · split at h
          · rw [Run.bind_eq_ok] at h
            obtain ⟨⟨u, e⟩, hu, h⟩ := h
            injection h with h; injection h with _ h; injection h with _ h
            subst h
            have := (my_usleep_ok _ _ _ _ hu).2.2.2
            simp only at this
            rw [this]
            simp [List.countP_append, Event.isSendmsg]
          · injection h with h; injection h with _ h; injection h with _ h
            subst h; simp [List.countP_append, Event.isSendmsg]


/-- What one pass of the loop body does to the variables of the loop. -/
theorem cycle_ok (c : LoopCfg) (s s1 : Loop) (h : cycle c s = .ok s1) :
    s1.currentthread = (if s.currentthread + 1 = c.numthread then 0 else s.currentthread + 1) ∧
    s1.udp.sequence = (if s.currentthread + 1 = c.numthread then (s.udp.sequence + 1) % U64
      else s.udp.sequence) ∧
    s1.udp.enabled = s.udp.enabled ∧
    s1.totalpackets = (s.totalpackets + 1) % U64 ∧
    0 ≤ s.currentthread ∧
    (∃ hd, s.headers.get? s.currentthread.toNat = some hd ∧
      s1.headers = s.headers.set s.currentthread.toNat
        (hd.map fun x => nextHeader x c.framepersec)) ∧
    c.drop ≠ 0 ∧
    (s.udp.enabled = true →
      sendmsgCount s1 = sendmsgCount s +
        (if c.drop < 0 ∨ (s.totalpackets + 1) % U64 % c.drop.toNat ≠ 0 then 1 else 0)) := by
  unfold cycle at h
  rw [Run.bind_eq_ok] at h
  obtain ⟨m, hsend, hadv⟩ := h
  -- the send step
  have hm : m.currentthread = s.currentthread ∧ m.udp.sequence = s.udp.sequence ∧
      m.udp.enabled = s.udp.enabled ∧ m.totalpackets = (s.totalpackets + 1) % U64 ∧
      m.headers = s.headers ∧ c.drop ≠ 0 ∧
      (s.udp.enabled = true →
        sendmsgCount m = sendmsgCount s +
          (if c.drop < 0 ∨ (s.totalpackets + 1) % U64 % c.drop.toNat ≠ 0 then 1 else 0)) := by
    unfold sendStep at hsend
    simp only at hsend
    have hsent : ∀ t m : Loop, sendFrame c t = Run.ok m →
        m.currentthread = t.currentthread ∧ m.udp.sequence = t.udp.sequence ∧
        m.udp.enabled = t.udp.enabled ∧ m.totalpackets = t.totalpackets ∧
        m.headers = t.headers ∧
        (t.udp.enabled = true → sendmsgCount m = sendmsgCount t + 1) := by
      intro t m hm
      unfold sendFrame at hm
      rw [Run.bind_eq_ok] at hm
      obtain ⟨⟨st, u, e⟩, hn, hm⟩ := hm
      split at hm
      · cases hm
      · injection hm with hm
        subst hm
        have hf := netsend_udp_fields _ _ _ _ _ _ _ hn
        refine ⟨rfl, hf.2, hf.1, rfl, rfl, ?_⟩
        intro he
        exact netsend_datagram_trace _ _ _ _ _ _ _ he hn
    split at hsend
    · rename_i hneg
      obtain ⟨h1, h2, h3, h4, h5, h6⟩ := hsent _ m hsend
      refine ⟨h1, h2, h3, h4, h5, by omega, ?_⟩
      intro he
      rw [if_pos (Or.inl hneg)]
      exact h6 he
    · rename_i hneg
      split at hsend
      · cases hsend
      · rename_i hne
        split at hsend
        · rename_i hmod
          obtain ⟨h1, h2, h3, h4, h5, h6⟩ := hsent _ m hsend
          refine ⟨h1, h2, h3, h4, h5, hne, ?_⟩
          intro he
          rw [if_pos (Or.inr hmod)]
          exact h6 he
        · rename_i hmod
          injection hsend with hsend
          subst hsend
          refine ⟨rfl, rfl, rfl, rfl, rfl, hne, ?_⟩
          intro _
          rw [if_neg (by
            intro hh
            rcases hh with hh | hh
            · exact hneg hh
            · exact hmod hh)]
          rfl
  obtain ⟨hm1, hm2, hm3, hm4, hm5, hm6, hm7⟩ := hm
  -- the advance step
  unfold advanceStep at hadv
  split at hadv
  · cases hadv
  · rename_i hnn
    split at hadv
    · cases hadv
    · rename_i hd hget
      simp only at hadv
      rw [hm1] at hadv hget hnn
      rw [hm5] at hadv hget
      have hres : s1.env = m.env := by
        split at hadv <;> (injection hadv with hadv; subst hadv; rfl)
      have hcount : sendmsgCount s1 = sendmsgCount m := by
        unfold sendmsgCount; rw [hres]
      split at hadv
      · rename_i hw
        injection hadv with hadv
        subst hadv
        refine ⟨by rw [if_pos hw], by rw [if_pos hw]; simp only []; rw [hm2], hm3, hm4,
          by omega, ⟨hd, hget, rfl⟩, hm6, ?_⟩
        intro he
        rw [hcount]; exact hm7 he
      · rename_i hw
        injection hadv with hadv
        subst hadv
        refine ⟨by rw [if_neg hw], by rw [if_neg hw]; exact hm2, hm3, hm4,
          by omega, ⟨hd, hget, rfl⟩, hm6, ?_⟩
        intro he
        rw [hcount]; exact hm7 he


/-- After k cycles from a loop entry with totalpackets = 0 the packet counter
is k modulo 2^64 and the transport mode is unchanged. -/
theorem run_counters (c : LoopCfg) (s0 : Loop) (htp : s0.totalpackets = 0) (k : Nat) :
    ∀ s, run c k s0 = .ok s →
      s.udp.enabled = s0.udp.enabled ∧ s.totalpackets = k % U64 := by
  induction k with
  | zero =>
    intro s h
    simp only [run] at h
    injection h with h
    subst h
    exact ⟨rfl, by rw [htp]; rfl⟩
  | succ k ih =>
    intro s h
    simp only [run] at h
    rw [Run.bind_eq_ok] at h
    obtain ⟨m, hm, hc⟩ := h
    obtain ⟨he, ht⟩ := ih m hm
    obtain ⟨_, _, h3, h4, _⟩ := cycle_ok c m s hc
    refine ⟨by rw [h3, he], ?_⟩
    rw [h4, ht]
    simp only [U64]
    omega

/-- After k cycles from a loop entry with currentthread = 0 and sequence = 0
the thread index is k mod numthread and the sequence counter is the number
of completed rounds modulo 2^64. -/
theorem run_threads (c : LoopCfg) (s0 : Loop) (hn : 1 ≤ c.numthread)
    (hct : s0.currentthread = 0) (hseq : s0.udp.sequence = 0) (k : Nat) :
    ∀ s, run c k s0 = .ok s →
      s.currentthread = ((k % c.numthread.toNat : Nat) : Int) ∧
      s.udp.sequence = (k / c.numthread.toNat) % U64 := by
  have hnat : (c.numthread.toNat : Int) = c.numthread := Int.toNat_of_nonneg (by omega)
  have hpos : 0 < c.numthread.toNat := by omega
  induction k with
  | zero =>
    intro s h
    simp only [run] at h
    injection h with h
    subst h
    exact ⟨by rw [hct]; simp, by rw [hseq]; simp⟩
  | succ k ih =>
    intro s h
    simp only [run] at h
    rw [Run.bind_eq_ok] at h
    obtain ⟨m, hm, hc⟩ := h
    obtain ⟨hmc, hms⟩ := ih m hm
    obtain ⟨h1, h2, _⟩ := cycle_ok c m s hc
    have hsd := succ_divmod k c.numthread.toNat hpos
    by_cases hw : k % c.numthread.toNat + 1 = c.numthread.toNat
    · rw [if_pos hw] at hsd
      have hw' : m.currentthread + 1 = c.numthread := by rw [hmc, ← hnat]; exact_mod_cast hw
      rw [if_pos hw'] at h1 h2
      refine ⟨by rw [h1, hsd.1]; rfl, ?_⟩
      rw [h2, hms, hsd.2]
      simp only [U64]
      omega
    · rw [if_neg hw] at hsd
      have hw' : ¬ (m.currentthread + 1 = c.numthread) := by
        rw [hmc, ← hnat]
        intro h
        exact hw (by exact_mod_cast h)
      rw [if_neg hw'] at h1 h2
      refine ⟨by rw [h1, hsd.1, hmc]; push_cast; rfl, ?_⟩
      rw [h2, hms, hsd.2]

/-- C9: in datagram mode with drop = N > 0, cycle j + 1 of the send loop (the
cycles counted from 1, within the range of the 64-bit packet counter) calls
sendmsg exactly when (j + 1) mod N is not 0 and makes no such call when it
is 0; and whether or not the frame is sent, the cycle advances the header
of the current thread, rotates the thread index and increments the sequence
counter on wraparound in the same way. -/
theorem drop_every_nth (c : LoopCfg) (s0 s s1 : Loop) (j : Nat)
    (hudp : s0.udp.enabled = true) (hN : 0 < c.drop) (htp : s0.totalpackets = 0)
    (hj : j + 1 < U64) (hrun : run c j s0 = .ok s) (hcyc : cycle c s = .ok s1) :
    (sendmsgCount s1 = sendmsgCount s + 1 ↔ ((j + 1 : Nat) : Int) % c.drop ≠ 0) ∧
    (sendmsgCount s1 = sendmsgCount s ↔ ((j + 1 : Nat) : Int) % c.drop = 0) ∧
    s1.currentthread = (if s.currentthread + 1 = c.numthread then 0 else s.currentthread + 1) ∧
    s1.udp.sequence = (if s.currentthread + 1 = c.numthread then (s.udp.sequence + 1) % U64
      else s.udp.sequence) ∧
    ∃ hd, s.headers.get? s.currentthread.toNat = some hd ∧
      s1.headers = s.headers.set s.currentthread.toNat
        (hd.map fun x => nextHeader x c.framepersec) := by
  obtain ⟨he, ht⟩ := run_counters c s0 htp j s hrun
  obtain ⟨h1, h2, _, _, _, h6, _, h8⟩ := cycle_ok c s s1 hcyc
  have hcount := h8 (by rw [he]; exact hudp)
  have hjj : j % U64 = j := Nat.mod_eq_of_lt (by omega)
  rw [ht, hjj, Nat.mod_eq_of_lt hj] at hcount
  have hd : (c.drop.toNat : Int) = c.drop := Int.toNat_of_nonneg (le_of_lt hN)
  have hcast : (((j + 1) % c.drop.toNat : Nat) : Int) = ((j + 1 : Nat) : Int) % c.drop := by
    rw [Int.natCast_mod, hd]
  have hiff : (j + 1) % c.drop.toNat ≠ 0 ↔ ((j + 1 : Nat) : Int) % c.drop ≠ 0 := by
    rw [← hcast]
    exact_mod_cast Iff.rfl
  refine ⟨?_, ?_, h1, h2, h6⟩
  · rw [hcount, ← hiff]
    by_cases hm : (j + 1) % c.drop.toNat ≠ 0
    · rw [if_pos (Or.inr hm)]; simp [hm]
    · rw [if_neg (by
        intro hh
        rcases hh with hh | hh
        · omega
        · exact hm hh)]
      simp [hm]
  · rw [hcount]
    have hiff' : (j + 1) % c.drop.toNat = 0 ↔ ((j + 1 : Nat) : Int) % c.drop = 0 := by
      rw [← hcast]
      exact_mod_cast Iff.rfl
    rw [← hiff']
    by_cases hm : (j + 1) % c.drop.toNat ≠ 0
    · rw [if_pos (Or.inr hm)]
      constructor
      · intro h; omega
      · intro h; exact absurd h hm
    · rw [if_neg (by
        intro hh
        rcases hh with hh | hh
        · omega
        · exact hm hh)]
      constructor
      · intro _; omega
      · intro _; rfl

/-- With drop = 3 and one thread, cycle 30 is skipped; over 30 cycles there are
20 calls of sendmsg, the skipped cycles are 3, 6, ..., 30 (listed by the
number of cycles completed before them) and the sequence counter ends at 30. -/
theorem drop_every_nth_witness :
    entryDrop3.udp.enabled = true ∧ 0 < cfgDrop3.drop ∧
    run cfgDrop3 29 entryDrop3 = .ok ((run cfgDrop3 29 entryDrop3).getD entryDrop3) ∧
    (sendmsgCount ((run cfgDrop3 30 entryDrop3).getD entryDrop3)
        = sendmsgCount ((run cfgDrop3 29 entryDrop3).getD entryDrop3)
      ↔ ((29 + 1 : Nat) : Int) % cfgDrop3.drop = 0) ∧
    sendmsgCount ((run cfgDrop3 30 entryDrop3).getD entryDrop3) = 20 ∧
    ((run cfgDrop3 30 entryDrop3).getD entryDrop3).udp.sequence = 30 ∧
    ((run cfgDrop3 30 entryDrop3).getD entryDrop3).totalpackets = 30 ∧
    (List.range 30).filter (fun j =>
        sendmsgCount ((run cfgDrop3 (j + 1) entryDrop3).getD entryDrop3)
          = sendmsgCount ((run cfgDrop3 j entryDrop3).getD entryDrop3))
      = [2, 5, 8, 11, 14, 17, 20, 23, 26, 29] :=
  ⟨by decide, by decide, by decide,
    (drop_every_nth cfgDrop3 entryDrop3 ((run cfgDrop3 29 entryDrop3).getD entryDrop3)
      ((run cfgDrop3 30 entryDrop3).getD entryDrop3) 29 (by decide) (by decide) (by decide)
      (by decide) (by decide) (by decide)).2.1,
    by decide, by decide, by decide, by decide⟩

/-- C10: for numthread >= 1, after k cycles from the loop entry (thread index
0, sequence counter 0 as line 458 sets it) the thread index is k mod numthread
and the sequence counter is floor(k / numthread) modulo 2^64; in the next
cycle the counter goes up by exactly 1 (modulo 2^64) when the thread index
wraps to 0 and is unchanged otherwise, so short of the 64-bit wraparound it
never decreases. -/
theorem sequence_counter_invariant (c : LoopCfg) (s0 s : Loop) (k : Nat)
    (hn : 1 ≤ c.numthread) (hct : s0.currentthread = 0) (hseq : s0.udp.sequence = 0)
    (hrun : run c k s0 = .ok s) :
    s.currentthread = (k : Int) % c.numthread ∧
    (s.udp.sequence : Int) = ((k : Int) / c.numthread) % (U64 : Int) ∧
    ∀ s1, cycle c s = .ok s1 →
      (s1.currentthread = 0 → s1.udp.sequence = (s.udp.sequence + 1) % U64) ∧
      (s1.currentthread ≠ 0 → s1.udp.sequence = s.udp.sequence) ∧
      (s.udp.sequence + 1 < U64 → s.udp.sequence ≤ s1.udp.sequence) := by
  have hnat : (c.numthread.toNat : Int) = c.numthread := Int.toNat_of_nonneg (by omega)
  obtain ⟨h1, h2⟩ := run_threads c s0 hn hct hseq k s hrun
  refine ⟨?_, ?_, ?_⟩
  · rw [h1, Int.natCast_mod, hnat]
  · rw [h2]
    push_cast
    rw [hnat]
  · intro s1 hc
    obtain ⟨c1, c2, _, _, c5, _⟩ := cycle_ok c s s1 hc
    by_cases hw : s.currentthread + 1 = c.numthread
    · rw [if_pos hw] at c1 c2
      refine ⟨fun _ => c2, fun h => absurd c1 h, ?_⟩
      intro hlt
      rw [c2, Nat.mod_eq_of_lt hlt]
      omega
    · rw [if_neg hw] at c1 c2
      refine ⟨fun h => ?_, fun _ => c2, fun _ => by rw [c2]⟩
      omega

/-- With three threads, after 7 cycles the thread index is 1 and the sequence
counter is 2. -/
theorem sequence_counter_invariant_witness :
    (1 : Int) ≤ cfgThree.numthread ∧
    run cfgThree 7 entryThree = .ok ((run cfgThree 7 entryThree).getD entryThree) ∧
    ((run cfgThree 7 entryThree).getD entryThree).currentthread = 1 ∧
    ((run cfgThree 7 entryThree).getD entryThree).udp.sequence = 2 ∧
    ((run cfgThree 7 entryThree).getD entryThree).currentthread = ((7 : Nat) : Int) % cfgThree.numthread :=
  ⟨by decide, by decide, by decide, by decide,
    (sequence_counter_invariant cfgThree entryThree ((run cfgThree 7 entryThree).getD entryThree)
      7 (by decide) (by decide) (by decide) (by decide)).1⟩



/-! ## Stream sender tcpsend (C11) -/

/-- C12: in datagram mode one invocation of netsend takes exactly one result
from sendmsg and records exactly one sendmsg call, for the first msg_iovlen
entries of iovect. When that result is -1 or differs from the sum of their
lengths, netsend returns 1 at once, without a further call; otherwise it
returns 0 (after the pacing wait when one is configured). A non-zero status
makes the send loop exit with code 1. -/
theorem netsend_datagram_once (msg_iovlen : Nat) (iovect : List IoVec) (udp : Udp)
    (env : Env) (r : SysRet) (rest : List SysRet)
    (hudp : udp.enabled = true) (hlen : msg_iovlen ≤ iovect.length)
    (hsum : ((iovect.take msg_iovlen).map fun v => v.iov_len).sum < SSIZE_LIMIT)
    (hscript : env.script = r :: rest) :
    ((r.ret = -1 ∨ r.ret ≠ ((((iovect.take msg_iovlen).map fun v => v.iov_len).sum : Nat) : Int)) →
      netsend msg_iovlen iovect udp env
        = .ok (1, udp, ⟨rest, env.clock, env.trace ++ [.sendmsg (iovect.take msg_iovlen)], env.wire⟩)) ∧
    (¬ (r.ret = -1 ∨ r.ret ≠ ((((iovect.take msg_iovlen).map fun v => v.iov_len).sum : Nat) : Int)) →
      ¬ (0 < udp.usleep) →
      netsend msg_iovlen iovect udp env
        = .ok (0, udp, ⟨rest, env.clock, env.trace ++ [.sendmsg (iovect.take msg_iovlen)], env.wire⟩)) ∧
    (∀ st udp1 env1, netsend msg_iovlen iovect udp env = .ok (st, udp1, env1) →
      (st ≠ 0 ↔
        (r.ret = -1 ∨
          r.ret ≠ ((((iovect.take msg_iovlen).map fun v => v.iov_len).sum : Nat) : Int))) ∧
      env1.script = rest ∧
      env1.trace.countP Event.isSendmsg = env.trace.countP Event.isSendmsg + 1 ∧
      (st ≠ 0 → ∀ (c : LoopCfg) (s : Loop), c.msg_iovlen = msg_iovlen → s.iovect = iovect →
        s.udp = udp → s.env = env → sendFrame c s = .exited 1)) := by
  have hnl : ¬ (iovect.length < msg_iovlen) := by omega
  have hns : ¬ (SSIZE_LIMIT ≤ ((iovect.take msg_iovlen).map fun v => v.iov_len).sum) := by omega
  have hunf : netsend msg_iovlen iovect udp env =
      (if r.ret = -1 then .ok (1, udp, ⟨rest, env.clock, env.trace ++ [.sendmsg (iovect.take msg_iovlen)], env.wire⟩)
       else if r.ret ≠ ((((iovect.take msg_iovlen).map fun v => v.iov_len).sum : Nat) : Int) then
         .ok (1, udp, ⟨rest, env.clock, env.trace ++ [.sendmsg (iovect.take msg_iovlen)], env.wire⟩)
       else if 0 < udp.usleep then
         (my_usleep udp ⟨rest, env.clock, env.trace ++ [.sendmsg (iovect.take msg_iovlen)], env.wire⟩).bind
              fun r => .ok (0, r.1, r.2)
       else .ok (0, udp, ⟨rest, env.clock, env.trace ++ [.sendmsg (iovect.take msg_iovlen)], env.wire⟩)) := by
    unfold netsend
    rw [if_pos hudp, if_neg hnl, if_neg hns]
    simp only [hscript]
  refine ⟨?_, ?_, ?_⟩
  · intro h
    rw [hunf]
    by_cases h1 : r.ret = -1
    · rw [if_pos h1]
    · rw [if_neg h1, if_pos (by rcases h with h | h; exact absurd h h1; exact h)]
  · intro h hu
    rw [hunf]
    rw [if_neg (fun h1 => h (Or.inl h1)), if_neg (fun h1 => h (Or.inr h1)), if_neg hu]
  · intro st udp1 env1 h
    have hcount := netsend_datagram_trace _ _ _ _ _ _ _ hudp h
    have hst : (st ≠ 0 ↔ (r.ret = -1 ∨
        r.ret ≠ ((((iovect.take msg_iovlen).map fun v => v.iov_len).sum : Nat) : Int))) ∧
        env1.script = rest := by
      rw [hunf] at h
      by_cases h1 : r.ret = -1
      · rw [if_pos h1] at h
        injection h with h; injection h with hs h; injection h with _ he
        subst hs he
        exact ⟨⟨fun _ => Or.inl h1, fun _ => by decide⟩, rfl⟩
      · rw [if_neg h1] at h
        by_cases h2 : r.ret ≠ ((((iovect.take msg_iovlen).map fun v => v.iov_len).sum : Nat) : Int)
        · rw [if_pos h2] at h
          injection h with h; injection h with hs h; injection h with _ he
          subst hs he
          exact ⟨⟨fun _ => Or.inr h2, fun _ => by decide⟩, rfl⟩
        · rw [if_neg h2] at h
          have hno : ¬ (r.ret = -1 ∨
              r.ret ≠ ((((iovect.take msg_iovlen).map fun v => v.iov_len).sum : Nat) : Int)) := by
            intro hh
            rcases hh with hh | hh
            · exact h1 hh
            · exact h2 hh
          by_cases h3 : 0 < udp.usleep
          · rw [if_pos h3, Run.bind_eq_ok] at h
            obtain ⟨⟨u, e⟩, hu, h⟩ := h
            injection h with h; injection h with hs h; injection h with _ he
            subst hs he
            refine ⟨⟨fun h0 => absurd rfl h0, fun hh => absurd hh hno⟩, ?_⟩
            unfold my_usleep at hu
            split at hu
            · cases hu
            · rw [Run.bind_eq_ok] at hu
              obtain ⟨x, _, hu⟩ := hu
              injection hu with hu
              injection hu with _ hu
              subst hu
              rfl
          · rw [if_neg h3] at h
            injection h with h; injection h with hs h; injection h with _ he
            subst hs he
            exact ⟨⟨fun h0 => absurd rfl h0, fun hh => absurd hh hno⟩, rfl⟩
    refine ⟨hst.1, hst.2, hcount, ?_⟩
    intro hne c s hc hi hu he
    unfold sendFrame
    rw [hc, hi, hu, he, h]
    simp only [Run.bind]
    rw [if_pos hne]

/-- A datagram of 1320 bytes of which sendmsg reports 1000 sent: netsend returns
1 after that single call. -/
theorem netsend_datagram_once_witness :
    entryDrop3.udp.enabled = true ∧
    netsend 3 entryDrop3.iovect entryDrop3.udp envShort
      = .ok (1, entryDrop3.udp,
          ⟨[⟨1320, false⟩], [], [.sendmsg (entryDrop3.iovect.take 3)], []⟩) :=
  ⟨by decide,
    (netsend_datagram_once 3 entryDrop3.iovect entryDrop3.udp envShort ⟨1000, false⟩
      [⟨1320, false⟩] (by decide) (by decide) (by decide) (by decide)).1 (by decide)⟩

/-! ## Payload buffer (C13) -/

/-- The fill loop writes i mod 256 at every offset of its range and nothing
elsewhere. -/
theorem fillLoop_apply (stop : Int) :
    ∀ (n : Nat) (m : Int → Option Nat) (i : Int), 0 ≤ i → stop - i ≤ n → ∀ j,
      fillLoop m i stop n j = if i ≤ j ∧ j < stop then some (j % 256).toNat else m j := by
  intro n
  induction n with
  | zero =>
    intro m i _ hn j
    simp only [fillLoop]
    rw [if_neg]
    push_cast at hn
    omega
  | succ n ih =>
    intro m i hi hn j
    simp only [fillLoop]
    by_cases hlt : i < stop
    · rw [if_pos hlt, ih _ (i + 1) (by omega) (by push_cast at hn ⊢; omega) j]
      by_cases hj : j = i
      · subst hj
        rw [if_neg (by omega)]
        simp only [if_true]
        rw [if_pos (show j ≤ j ∧ j < stop from ⟨le_refl _, hlt⟩),
          Int.tmod_eq_emod hi (by norm_num)]
      · by_cases hr : i + 1 ≤ j ∧ j < stop
        · rw [if_pos hr, if_pos ⟨by omega, hr.2⟩]
        · rw [if_neg hr, if_neg hj, if_neg (by omega)]
    · rw [if_neg hlt, if_neg (by omega)]

/-- C13 (defect in the code): for the default sizes (32-byte header, bufsize
8192) the fill succeeds, but the payload of 8192 bytes handed to the
transport starts with 32 bytes that were never written: the start sentinel
is copied to offset 32, not to offset 0. Its terminating NUL lands at offset
48, the counter pattern runs from offset 49 to 8174, and the last byte of
the payload is the terminating NUL of the end sentinel, whose sixteen
characters stand at offsets 8175 to 8190. -/
theorem payload_starts_unwritten :
    ∃ m, fillBuf 32 8192 = .ok m ∧
      (payloadBytes m 8192).length = 8192 ∧
      (payloadBytes m 8192).head? = some none ∧
      m 0 = none ∧ m 31 = none ∧
      m 32 = some 65 ∧ m 47 = some 65 ∧ m 48 = some 0 ∧
      m 49 = some 49 ∧ m 8174 = some 238 ∧
      m 8175 = some 90 ∧ m 8190 = some 90 ∧ m 8191 = some 0 := by
  have hm : ∀ j, fillLoop (memcpy (memcpy (fun _ => none) 32 startSentinel) (8192 - 17)
      endSentinel) (32 + 17) (8192 - 17) (8192 - 17 - (32 + 17) : Int).toNat j
      = if (32 + 17 : Int) ≤ j ∧ j < 8192 - 17 then some (j % 256).toNat
        else memcpy (memcpy (fun _ => none) 32 startSentinel) (8192 - 17) endSentinel j :=
    fun j => fillLoop_apply _ _ _ _ (by decide) (by decide) j
  refine ⟨fillLoop (memcpy (memcpy (fun _ => none) 32 startSentinel) (8192 - 17)
      endSentinel) (32 + 17) (8192 - 17) (8192 - 17 - (32 + 17) : Int).toNat, rfl,
      ?_, ?_, ?_, ?_, ?_, ?_, ?_, ?_, ?_, ?_, ?_, ?_⟩
  · unfold payloadBytes
    rw [List.length_map, List.length_range]
    rfl
  · unfold payloadBytes
    have h1 : (8192 : Int).toNat = 8191 + 1 := by decide
    rw [h1, List.range_succ_eq_map]
    simp only [List.map_cons, List.head?_cons]
    rw [show ((0 : Nat) : Int) = 0 from rfl, hm]
    rfl
  all_goals (rw [hm]; rfl)

/-! ## Leap years (C14) -/

/-- C14: for every integer year leap(year) is non-zero exactly when the year
is divisible by 4 and not by 100, or divisible by 400; leap(2000) and
leap(2024) are non-zero, leap(1900) and leap(2023) are zero. -/
theorem leap_gregorian :
    (∀ year : Int, leap year ≠ 0 ↔ (4 ∣ year ∧ ¬ 100 ∣ year) ∨ 400 ∣ year) ∧
    leap 2000 ≠ 0 ∧ leap 1900 = 0 ∧ leap 2024 ≠ 0 ∧ leap 2023 = 0 := by
  refine ⟨?_, by decide, by decide, by decide, by decide⟩
  intro year
  unfold leap
  rw [Int.dvd_iff_tmod_eq_zero, Int.dvd_iff_tmod_eq_zero, Int.dvd_iff_tmod_eq_zero]
  by_cases h : (year.tmod 4 = 0 ∧ year.tmod 100 ≠ 0) ∨ year.tmod 400 = 0
  · rw [if_pos h]
    exact ⟨fun _ => h, fun _ => by decide⟩
  · rw [if_neg h]
    exact ⟨fun h0 => absurd rfl h0, fun hh => absurd hh h⟩

/-! ## Day of year (C15) -/

theorem checked_ok (x : Int) (h1 : -2147483648 ≤ x) (h2 : x ≤ 2147483647) :
    checked x = .ok x := by
  unfold checked
  rw [if_pos ((fitsInt_iff x).2 ⟨h1, h2⟩)]

theorem sum_take_bounds (table : List Int) (hT : ∀ d ∈ table, 1 ≤ d ∧ d ≤ 31) :
    ∀ k : Nat, 0 ≤ (table.take k).sum ∧ (table.take k).sum ≤ 31 * (table.length : Int) ∧
      (table.take k).sum ≤ table.sum := by
  induction table with
  | nil => intro k; simp
  | cons d rest ih =>
    intro k
    have hd := hT d (List.mem_cons_self _ _)
    have hr := ih (fun x hx => hT x (List.mem_cons_of_mem _ hx))
    cases k with
    | zero =>
      have h1 := hr 0
      simp only [List.take_zero, List.sum_nil] at h1
      simp only [List.take_zero, List.sum_nil, List.length_cons, List.sum_cons]
      push_cast
      refine ⟨?_, ?_, ?_⟩ <;> first | trivial | omega
    | succ k =>
      have h1 := hr k
      simp only [List.take_succ_cons, List.sum_cons, List.length_cons]
      push_cast
      refine ⟨by omega, by omega, by omega⟩

/-- The loop of cal2dayno adds the first k table entries to the day. -/
theorem cal2daynoLoop_eq (table : List Int) (hT : ∀ d ∈ table, 1 ≤ d ∧ d ≤ 31) :
    ∀ (mon month dayno : Int) (k : Nat), month - mon = k → k ≤ table.length →
      0 ≤ dayno → dayno + 31 * (table.length : Int) ≤ 100000 →
      cal2daynoLoop table mon month dayno = .ok (dayno + (table.take k).sum) := by
  induction table with
  | nil =>
    intro mon month dayno k hk hlen _ _
    have : k = 0 := by simpa using hlen
    subst this
    unfold cal2daynoLoop
    rw [if_neg (by push_cast at hk; omega)]
    simp
  | cons d rest ih =>
    intro mon month dayno k hk hlen h0 hb
    have hd := hT d (List.mem_cons_self _ _)
    simp only [List.length_cons] at hlen hb
    push_cast at hb
    unfold cal2daynoLoop
    cases k with
    | zero =>
      rw [if_neg (by push_cast at hk; omega)]
      simp
    | succ k =>
      rw [if_pos (by push_cast at hk; omega), checked_ok _ (by omega) (by omega)]
      simp only [Run.bind]
      rw [ih (fun x hx => hT x (List.mem_cons_of_mem _ hx)) (mon + 1) month (dayno + d) k
        (by push_cast at hk; omega) (by omega) (by omega) (by omega)]
      simp only [List.take_succ_cons, List.sum_cons]
      congr 1
      omega

/-- The loop of dayno2cal finds the month whose days hold the day number. -/
theorem dayno2calLoop_at :
    ∀ (rest : List Int) (dcur month endv dayno : Int) (j : Nat) (day : Int),
      (∀ d ∈ dcur :: rest, 1 ≤ d ∧ d ≤ 31) → j < (dcur :: rest).length →
      1 ≤ day → day ≤ (dcur :: rest).getD j 0 →
      dayno = (endv - dcur) + ((dcur :: rest).take j).sum + day →
      0 ≤ endv - dcur → endv + 31 * (rest.length : Int) ≤ 100000 →
      dayno2calLoop rest dcur month endv dayno = .ok (day, month + (j : Int) + 1) := by
  intro rest
  induction rest with
  | nil =>
    intro dcur month endv dayno j day hT hj hd1 hd hn h0 hb
    have hj0 : j = 0 := by simpa using hj
    subst hj0
    have hdc := hT dcur (List.mem_cons_self _ _)
    simp only [List.getD_cons_zero, List.take_zero, List.sum_nil] at hd hn
    simp only [List.length_nil] at hb
    unfold dayno2calLoop
    rw [if_neg (by omega)]
    unfold dayno2calEnd
    rw [checked_ok _ (by omega) (by omega)]
    simp only [Run.bind]
    rw [checked_ok _ (by omega) (by omega)]
    simp only [Run.bind]
    congr 2
    · omega
    · push_cast; omega
  | cons d rest ih =>
    intro dcur month endv dayno j day hT hj hd1 hd hn h0 hb
    have hdc := hT dcur (List.mem_cons_self _ _)
    have hdd := hT d (List.mem_cons_of_mem _ (List.mem_cons_self _ _))
    simp only [List.length_cons] at hb hj
    push_cast at hb
    unfold dayno2calLoop
    cases j with
    | zero =>
      simp only [List.getD_cons_zero, List.take_zero, List.sum_nil] at hd hn
      rw [if_neg (by omega)]
      unfold dayno2calEnd
      rw [checked_ok _ (by omega) (by omega)]
      simp only [Run.bind]
      rw [checked_ok _ (by omega) (by omega)]
      simp only [Run.bind]
      congr 2
      · omega
      · push_cast; omega
    | succ j =>
      have hT' : ∀ x ∈ d :: rest, 1 ≤ x ∧ x ≤ 31 := fun x hx => hT x (List.mem_cons_of_mem _ hx)
      have hs := (sum_take_bounds (d :: rest) hT' j).1
      simp only [List.getD_cons_succ, List.take_succ_cons, List.sum_cons] at hd hn
      rw [if_pos (by omega), checked_ok _ (by omega) (by omega)]
      simp only [Run.bind]
      rw [ih d (month + 1) (endv + d) dayno j day hT' (by simp only [List.length_cons]; omega)
        hd1 hd (by omega) (by omega) (by omega)]
      congr 2
      push_cast
      omega

/-- Every day number within the days of the table lies in one of its months. -/
theorem dayno_in_month :
    ∀ (rest : List Int) (dcur base dayno : Int),
      (∀ d ∈ dcur :: rest, 1 ≤ d ∧ d ≤ 31) → base < dayno → dayno ≤ base + dcur + rest.sum →
      ∃ (j : Nat) (day : Int), j < (dcur :: rest).length ∧ 1 ≤ day ∧
        day ≤ (dcur :: rest).getD j 0 ∧ dayno = base + ((dcur :: rest).take j).sum + day := by
  intro rest
  induction rest with
  | nil =>
    intro dcur base dayno _ hlo hhi
    simp only [List.sum_nil] at hhi
    exact ⟨0, dayno - base, by simp, by omega, by simp only [List.getD_cons_zero]; omega,
      by simp⟩
  | cons d rest ih =>
    intro dcur base dayno hT hlo hhi
    simp only [List.sum_cons] at hhi
    by_cases hle : dayno ≤ base + dcur
    · exact ⟨0, dayno - base, by simp, by omega, by simp only [List.getD_cons_zero]; omega,
        by simp⟩
    · obtain ⟨j, day, hj, hd1, hd, hn⟩ := ih d (base + dcur) dayno
        (fun x hx => hT x (List.mem_cons_of_mem _ hx)) (by omega) (by omega)
      refine ⟨j + 1, day, by simp only [List.length_cons] at hj ⊢; omega, hd1,
        by simpa only [List.getD_cons_succ] using hd, ?_⟩
      simp only [List.take_succ_cons, List.sum_cons]
      omega

/-- The adjusted table: twelve entries from 28 to 31 that add up to the
length of the year. -/
theorem daysOf_facts (year : Int) :
    ∃ f rest, daysOf year = 31 :: rest ∧ rest = [f, 31, 30, 31, 30, 31, 31, 30, 31, 30, 31] ∧
      (f = 28 ∨ f = 29) ∧ f = 28 + leap year := by
  refine ⟨if leap year ≠ 0 then 29 else 28, _, rfl, rfl, ?_, ?_⟩
  · split
    · right; rfl
    · left; rfl
  · unfold leap
    split <;> simp

/-- C15: for every year and every valid day and month of that year,
dayno2cal(cal2dayno(day, month, year), year) gives back the day and the
month; and every n from 1 to 365 (366 in a leap year) is taken by dayno2cal
to a valid day and month of which cal2dayno is n. Both functions return on
these inputs, so the index into the month table stays within its twelve
entries. -/
theorem dayno_roundtrip (day month year n : Int) (hv : validDate day month year)
    (hn1 : 1 ≤ n) (hn : n ≤ 365 + leap year) :
    (∃ k, cal2dayno day month year = .ok k ∧ dayno2cal k year = .ok (day, month)) ∧
    (∃ d m, dayno2cal n year = .ok (d, m) ∧ validDate d m year ∧
      cal2dayno d m year = .ok n) := by
  obtain ⟨f, rest, hT, hrest, hf, hfl⟩ := daysOf_facts year
  have hent : ∀ d ∈ (31 : Int) :: rest, 1 ≤ d ∧ d ≤ 31 := by
    intro d hd
    rw [hrest] at hd
    simp only [List.mem_cons, List.mem_singleton, List.not_mem_nil, or_false] at hd
    omega
  have hlen : rest.length = 11 := by rw [hrest]; rfl
  have hsum : rest.sum = f + 306 := by
    rw [hrest]
    simp only [List.sum_cons, List.sum_nil]
    ring
  have hcal : ∀ d m : Int, 1 ≤ m → m ≤ 12 → 1 ≤ d → d ≤ 31 →
      cal2dayno d m year = .ok (d + (((31 : Int) :: rest).take (m - 1).toNat).sum) := by
    intro d m hm1 hm12 hd1 hd31
    unfold cal2dayno
    rw [checked_ok _ (by omega) (by omega)]
    simp only [Run.bind]
    rw [hT]
    exact cal2daynoLoop_eq _ hent 0 (m - 1) d (m - 1).toNat (by omega)
      (by simp only [List.length_cons, hlen]; omega) (by omega)
      (by simp only [List.length_cons, hlen]; push_cast; omega)
  have hback : ∀ (j : Nat) (d : Int), j < 12 → 1 ≤ d → d ≤ ((31 : Int) :: rest).getD j 0 →
      dayno2cal (d + (((31 : Int) :: rest).take j).sum) year = .ok (d, (j : Int) + 1) := by
    intro j d hj hd1 hd
    unfold dayno2cal
    rw [hT]
    simp only
    rw [dayno2calLoop_at rest 31 0 31 _ j d hent (by simp only [List.length_cons, hlen]; omega)
      hd1 hd (by omega) (by omega) (by rw [hlen]; norm_num)]
    congr 2
    omega
  obtain ⟨hm1, hm12, hd1, hd⟩ := hv
  rw [hT] at hd
  have hj : (month - 1).toNat < 12 := by omega
  have hd31 : day ≤ 31 := by
    have hmem : ((31 : Int) :: rest).getD (month - 1).toNat 0 ∈ (31 : Int) :: rest := by
      rw [List.getD_eq_getElem _ _ (by simp only [List.length_cons, hlen]; omega)]
      exact List.getElem_mem _
    have := hent _ hmem
    omega
  refine ⟨⟨_, hcal day month hm1 hm12 hd1 hd31, ?_⟩, ?_⟩
  · rw [hback (month - 1).toNat day hj hd1 hd]
    congr 2
    omega
  · obtain ⟨j, d, hj', hd1', hd', hn'⟩ := dayno_in_month rest 31 0 n hent (by omega)
      (by rw [hsum]; omega)
    simp only [List.length_cons, hlen] at hj'
    have hd31' : d ≤ 31 := by
      have hmem : ((31 : Int) :: rest).getD j 0 ∈ (31 : Int) :: rest := by
        rw [List.getD_eq_getElem _ _ (by simp only [List.length_cons, hlen]; omega)]
        exact List.getElem_mem _
      have := hent _ hmem
      omega
    have hjcast : ((j : Int) + 1 - 1).toNat = j := by omega
    refine ⟨d, (j : Int) + 1, ?_, ⟨by omega, by omega, hd1', ?_⟩, ?_⟩
    · have := hback j d (by omega) hd1' hd'
      rw [hn']
      rw [show (0 : Int) + (((31 : Int) :: rest).take j).sum + d
        = d + (((31 : Int) :: rest).take j).sum by omega]
      exact this
    · rw [hT, hjcast]; exact hd'
    · rw [hcal d ((j : Int) + 1) (by omega) (by omega) hd1' hd31', hjcast, hn']
      congr 1
      omega

/-- The leap day 29 February 2024 is day 60 and day 60 is 29 February; day 366
of 2024 is 31 December. -/
theorem dayno_roundtrip_witness :
    validDate 29 2 2024 ∧ (366 : Int) ≤ 365 + leap 2024 ∧
    cal2dayno 29 2 2024 = .ok 60 ∧ dayno2cal 60 2024 = .ok (29, 2) ∧
    dayno2cal 366 2024 = .ok (31, 12) ∧
    (∃ k, cal2dayno 29 2 2024 = .ok k ∧ dayno2cal k 2024 = .ok (29, 2)) :=
  ⟨by decide, by decide, by decide, by decide, by decide,
    (dayno_roundtrip 29 2 2024 366 (by decide) (by decide) (by decide)).1⟩

/-! ## Sexagesimal formatting (C16) -/

set_option maxRecDepth 100000 in
/-- C17 (defect in the code): the thread count 0 passes the test of line 422,
the loop of lines 504-523 then creates no header, and the send loop uses
index 0, which is not below numthread and whose header was never created;
the index is never equal to numthread after the increment, so it grows by
one per cycle, reaches 64 after 64 cycles and leaves the 64-slot array in
cycle 65. -/
theorem zero_threads_leave_header_array :
    threadCheck udp1500zero.numthread = .ok () ∧
    (sizing udp1500zero).bind (fun z => .ok (loopCfg udp1500zero z)) = .ok cfgZero ∧
    entryZero.headers = List.replicate 64 none ∧
    entryZero.currentthread = 0 ∧ ¬ (entryZero.currentthread < cfgZero.numthread) ∧
    run cfgZero 1 entryZero = .ok ((run cfgZero 1 entryZero).getD entryZero) ∧
    ((run cfgZero 1 entryZero).getD entryZero).env.trace =
      [.sendmsg [⟨.sequence, 8⟩, ⟨.header 0, 32⟩, ⟨.payload, 1280⟩]] ∧
    ((run cfgZero 1 entryZero).getD entryZero).currentthread = 1 ∧
    run cfgZero 64 entryZero = .ok ((run cfgZero 64 entryZero).getD entryZero) ∧
    ((run cfgZero 64 entryZero).getD entryZero).currentthread = 64 ∧
    ((run cfgZero 64 entryZero).getD entryZero).headers.get? 64 = none ∧
    run cfgZero 65 entryZero = .undefined := by
  decide

/-! ## Pacing between packets (C18) -/

theorem my_usleep_pacer (udp udp1 : Udp) (env env1 : Env)
    (h : my_usleep udp env = .ok (udp1, env1)) :
    env1.trace = env.trace ++ [.my_usleep] ∧ udp1.usleep = udp.usleep := by
  unfold my_usleep at h
  split at h
  · cases h
  · rw [Run.bind_eq_ok] at h
    obtain ⟨r, _, h⟩ := h
    injection h with h
    injection h with h1 h2
    subst h1 h2
    exact ⟨rfl, rfl⟩

/-- A call of netsend in datagram mode with a positive delay that returns 0
has called my_usleep exactly once. -/
theorem netsend_pacer (n : Nat) (iov : List IoVec) (udp udp1 : Udp) (env env1 : Env)
    (he : udp.enabled = true) (hus : 0 < udp.usleep)
    (h : netsend n iov udp env = .ok (0, udp1, env1)) :
    env1.trace.countP Event.isUsleep = env.trace.countP Event.isUsleep + 1 := by
  unfold netsend at h
  rw [if_pos he] at h
  split at h
  · cases h
  · split at h
    · cases h
    simp only at h
    split at h
    · cases h
    · split at h
      · injection h with h; injection h with h _
        exact absurd h (by decide)
      · split at h
        · injection h with h; injection h with h _
          exact absurd h (by decide)
        · rw [Run.bind_eq_ok] at h
          obtain ⟨⟨u, e⟩, hu, h⟩ := h
          injection h with h; injection h with _ h; injection h with _ h
          subst h
          have := (my_usleep_pacer _ _ _ _ hu).1
          simp only at this
          rw [this]
          simp [List.countP_append, Event.isUsleep]

/-- What one pass of the loop body does to the pacer in datagram mode with a
positive delay. -/
theorem cycle_pacer (c : LoopCfg) (s s1 : Loop) (he : s.udp.enabled = true)
    (hus : 0 < s.udp.usleep) (h : cycle c s = .ok s1) :
    usleepCount s1 = usleepCount s +
        (if c.drop < 0 ∨ (s.totalpackets + 1) % U64 % c.drop.toNat ≠ 0 then 1 else 0) ∧
      (¬ (c.drop < 0 ∨ (s.totalpackets + 1) % U64 % c.drop.toNat ≠ 0) →
        s1.udp.lastsleep = s.udp.lastsleep ∧ s1.env.trace = s.env.trace) := by
  unfold cycle at h
  rw [Run.bind_eq_ok] at h
  obtain ⟨m, hsend, hadv⟩ := h
  have hm : usleepCount m = usleepCount s +
        (if c.drop < 0 ∨ (s.totalpackets + 1) % U64 % c.drop.toNat ≠ 0 then 1 else 0) ∧
      (¬ (c.drop < 0 ∨ (s.totalpackets + 1) % U64 % c.drop.toNat ≠ 0) →
        m.udp.lastsleep = s.udp.lastsleep ∧ m.env.trace = s.env.trace) := by
    unfold sendStep at hsend
    simp only at hsend
    have hsent : ∀ t m : Loop, t.udp.enabled = true → 0 < t.udp.usleep →
        sendFrame c t = Run.ok m → usleepCount m = usleepCount t + 1 := by
      intro t m hte htu hm
      unfold sendFrame at hm
      rw [Run.bind_eq_ok] at hm
      obtain ⟨⟨st, u, e⟩, hn, hm⟩ := hm
      split at hm
      · cases hm
      · rename_i hst
        have hst0 : st = 0 := by
          by_contra hne
          exact hst hne
        subst hst0
        injection hm with hm
        subst hm
        exact netsend_pacer _ _ _ _ _ _ hte htu hn
    split at hsend
    · rename_i hneg
      refine ⟨?_, fun hn => absurd (Or.inl hneg) hn⟩
      rw [if_pos (Or.inl hneg)]
      exact (fun a b => hsent _ m a b hsend) he hus
    · rename_i hneg
      split at hsend
      · cases hsend
      · split at hsend
        · rename_i hmod
          refine ⟨?_, fun hn => absurd (Or.inr hmod) hn⟩
          rw [if_pos (Or.inr hmod)]
          exact (fun a b => hsent _ m a b hsend) he hus
        · rename_i hmod
          injection hsend with hsend
          subst hsend
          refine ⟨?_, fun _ => ⟨rfl, rfl⟩⟩
          rw [if_neg (by
            intro hh
            rcases hh with hh | hh
            · exact hneg hh
            · exact hmod hh)]
          rfl
  have hres : s1.env = m.env ∧ s1.udp.lastsleep = m.udp.lastsleep := by
    unfold advanceStep at hadv
    split at hadv
    · cases hadv
    · split at hadv
      · cases hadv
      · simp only at hadv
        split at hadv <;> (injection hadv with hadv; subst hadv; exact ⟨rfl, rfl⟩)
  have hcount : usleepCount s1 = usleepCount m := by
    unfold usleepCount; rw [hres.1]
  refine ⟨by rw [hcount]; exact hm.1, fun hn => ?_⟩
  obtain ⟨h1, h2⟩ := hm.2 hn
  exact ⟨by rw [hres.2, h1], by rw [hres.1, h2]⟩

set_option maxRecDepth 100000 in
unseal Rat.add in
/-- C18 (as stated, refuted): with the options -udp 1500 -drop 3 -rate 0.01
the delay between packets is one second; the first two cycles send a frame
and call my_usleep once each, the third cycle is skipped by the drop test
and calls neither sendmsg nor my_usleep, and udp.lastsleep keeps the clock
reading 7 of the second cycle. -/
theorem pacer_not_called_on_skipped_cycle :
    entryPaced.udp.enabled = true ∧ 0 < entryPaced.udp.usleep ∧
    run cfgDrop3 2 entryPaced = .ok ((run cfgDrop3 2 entryPaced).getD entryPaced) ∧
    cycle cfgDrop3 ((run cfgDrop3 2 entryPaced).getD entryPaced) =
      .ok ((run cfgDrop3 3 entryPaced).getD entryPaced) ∧
    usleepCount ((run cfgDrop3 1 entryPaced).getD entryPaced) = 1 ∧
    usleepCount ((run cfgDrop3 2 entryPaced).getD entryPaced) = 2 ∧
    usleepCount ((run cfgDrop3 3 entryPaced).getD entryPaced) = 2 ∧
    ((run cfgDrop3 3 entryPaced).getD entryPaced).env.trace =
      ((run cfgDrop3 2 entryPaced).getD entryPaced).env.trace ∧
    ((run cfgDrop3 2 entryPaced).getD entryPaced).udp.lastsleep = 7 ∧
    ((run cfgDrop3 3 entryPaced).getD entryPaced).udp.lastsleep = 7 ∧
    ((run cfgDrop3 3 entryPaced).getD entryPaced).totalpackets = 3 := by
  decide

/-- C18 (as amended): in datagram mode with a positive pacing delay, a cycle
of the send loop that completes calls my_usleep exactly once when the frame
is sent, that is when drop is negative or the packet count is not a multiple
of drop, just as it calls sendmsg once; when the send is skipped it calls
neither, and udp.lastsleep and the record of calls stay as they were. -/
theorem pacer_runs_after_sent_frames (c : LoopCfg) (s s1 : Loop)
    (he : s.udp.enabled = true) (hus : 0 < s.udp.usleep) (hcyc : cycle c s = .ok s1) :
    usleepCount s1 = usleepCount s +
        (if c.drop < 0 ∨ (s.totalpackets + 1) % U64 % c.drop.toNat ≠ 0 then 1 else 0) ∧
    sendmsgCount s1 = sendmsgCount s +
        (if c.drop < 0 ∨ (s.totalpackets + 1) % U64 % c.drop.toNat ≠ 0 then 1 else 0) ∧
    (¬ (c.drop < 0 ∨ (s.totalpackets + 1) % U64 % c.drop.toNat ≠ 0) →
      s1.udp.lastsleep = s.udp.lastsleep ∧ s1.env.trace = s.env.trace) := by
  obtain ⟨h1, h2⟩ := cycle_pacer c s s1 he hus hcyc
  obtain ⟨_, _, _, _, _, _, _, h8⟩ := cycle_ok c s s1 hcyc
  exact ⟨h1, h8 he, h2⟩

set_option maxRecDepth 100000 in
unseal Rat.add in
/-- The second cycle with the options -udp 1500 -drop 3 -rate 0.01 sends its
frame and calls my_usleep once. -/
theorem pacer_runs_after_sent_frames_witness :
    usleepCount ((run cfgDrop3 2 entryPaced).getD entryPaced) =
      usleepCount ((run cfgDrop3 1 entryPaced).getD entryPaced) +
        (if cfgDrop3.drop < 0 ∨
            (((run cfgDrop3 1 entryPaced).getD entryPaced).totalpackets + 1) % U64 %
              cfgDrop3.drop.toNat ≠ 0 then 1 else 0) ∧
    usleepCount ((run cfgDrop3 2 entryPaced).getD entryPaced) = 2 :=
  ⟨(pacer_runs_after_sent_frames cfgDrop3 ((run cfgDrop3 1 entryPaced).getD entryPaced)
      ((run cfgDrop3 2 entryPaced).getD entryPaced) (by decide) (by decide) (by decide)).1,
    by decide⟩

/-! ## Pacing delay (C19) -/

/-- C19 (defect in the code): with the options -udp 1500 -rate 0.0078125 the
sizing succeeds with udp.size 1280 and 32-byte headers, the rate is positive
and packetsize is 1248, but packetspersec is 7812.5/8/1248 = 0.78 converted
to int, which is 0: line 538 divides 1 by zero and the delay is not a finite
number. With -rate 0.01 packetspersec is 1 and the delay is one second. -/
theorem pacing_delay_divides_by_zero :
    sizing udp1500slow = .ok ⟨⟨true, 1280, true, 0, 0, 0⟩, -1, 256, 32, 1280, 25641⟩ ∧
    0 < udp1500slow.rate ∧
    checked ((1280 : Int) - 32) = .ok 1248 ∧
    truncToInt (udp1500slow.rate * 1000000 / 8 / ((1248 : Int) : ℚ)) = 0 ∧
    pacingDelay udp1500slow.rate ⟨true, 1280, true, 0, 0, 0⟩ 32 = .ok none ∧
    pacingDelay (1 / 100) ⟨true, 1280, true, 0, 0, 0⟩ 32 = .ok (some 1) := by
  have hc : checked ((1280 : Int) - 32) = .ok 1248 := by decide
  have hr : udp1500slow.rate = 1 / 128 := rfl
  have ht : truncToInt ((1 / 128 : ℚ) * 1000000 / 8 / ((1248 : Int) : ℚ)) = 0 := by
    unfold truncToInt
    rw [if_pos (by norm_num), Int.floor_eq_iff]
    norm_num
  have ht1 : truncToInt ((1 / 100 : ℚ) * 1000000 / 8 / ((1248 : Int) : ℚ)) = 1 := by
    unfold truncToInt
    rw [if_pos (by norm_num), Int.floor_eq_iff]
    norm_num
  have h0 : checked 0 = .ok 0 := by decide
  have h1 : checked 1 = .ok 1 := by decide
  refine ⟨by decide, by rw [hr]; norm_num, hc, by rw [hr]; exact ht, ?_, ?_⟩
  · unfold pacingDelay
    simp only [hc, Run.bind, hr, ht, h0]
    rfl
  · unfold pacingDelay
    simp only [hc, Run.bind, ht1, h1]
    norm_num

/-! ## Final report (C20) -/

/-- C20 (defect in the code): the number printed at the end is udp.sequence,
which counts the wraparounds of the thread index, not the sends. With
-udp 1500 -drop 3 and one thread, 30 cycles make 20 calls of sendmsg and
the report says 30; with -udp 1500 -nthread 3 and no drop, 7 cycles make 7
calls and the report says 2. -/
theorem report_counts_rounds_not_sends :
    run cfgDrop3 30 entryDrop3 = .ok ((run cfgDrop3 30 entryDrop3).getD entryDrop3) ∧
    sendmsgCount ((run cfgDrop3 30 entryDrop3).getD entryDrop3) = 20 ∧
    reportedPackets ((run cfgDrop3 30 entryDrop3).getD entryDrop3) = some 30 ∧
    run cfgThree 7 entryThree = .ok ((run cfgThree 7 entryThree).getD entryThree) ∧
    sendmsgCount ((run cfgThree 7 entryThree).getD entryThree) = 7 ∧
    reportedPackets ((run cfgThree 7 entryThree).getD entryThree) = some 2 := by
  decide

/-! ## Frame-size solver: search order (C21) -/

/-- The solver loop as a search: it returns the start size lowered by 8 a
number of times, and every candidate above the result was positive and
failed the divisibility test. -/
theorem solveLoop_search (rate : Int) (fuel : Nat) (bufsize : Int) :
    ∃ n : Nat, n ≤ fuel ∧ solveLoop rate fuel bufsize = bufsize - 8 * (n : Int) ∧
      ∀ j : Nat, j < n → 0 < bufsize - 8 * (j : Int) ∧ rate.tmod (bufsize - 8 * (j : Int)) ≠ 0 := by
  induction fuel generalizing bufsize with
  | zero => exact ⟨0, le_refl _, by simp [solveLoop], fun j hj => absurd hj (Nat.not_lt_zero j)⟩
  | succ k ih =>
    unfold solveLoop
    split
    · rename_i hpos
      split
      · exact ⟨0, Nat.zero_le _, by simp, fun j hj => absurd hj (Nat.not_lt_zero j)⟩
      · rename_i hfail
        obtain ⟨n, hn, heq, hall⟩ := ih (bufsize - 8)
        refine ⟨n + 1, by omega, by rw [heq]; push_cast; ring, ?_⟩
        intro j hj
        cases j with
        | zero => exact ⟨by simpa using hpos, by simpa using hfail⟩
        | succ i =>
          have := hall i (by omega)
          have e : bufsize - 8 * ((i + 1 : Nat) : Int) = bufsize - 8 - 8 * (i : Int) := by
            push_cast; ring
          rw [e]
          exact this
    · exact ⟨0, Nat.zero_le _, by simp, fun j hj => absurd hj (Nat.not_lt_zero j)⟩

/-- When the loop of the solver is left by its break, which is the case
exactly when the size b it returns is positive, b is the start size s0
lowered by 8 a whole number of times, b passes the divisibility test on the
converted rate, every candidate s0 - 8j above b fails it, b is congruent to
s0 modulo 8 and b <= s0. -/
theorem solveFrameSize_first_match (datarate s0 b : Int)
    (h : solveFrameSize datarate s0 = .ok b) (hb : 0 < b) :
    rateInt datarate = .ok (datarate * 1000000) ∧
    (datarate * 1000000).tmod b = 0 ∧
    (∀ j : Nat, b < s0 - 8 * (j : Int) → (datarate * 1000000).tmod (s0 - 8 * (j : Int)) ≠ 0) ∧
    (∃ n : Nat, b = s0 - 8 * (n : Int)) ∧
    b % 8 = s0 % 8 ∧ 0 < b ∧ b ≤ s0 := by
  have hpos : 0 < s0 := by
    by_contra hn
    unfold solveFrameSize at h
    rw [if_neg hn] at h
    split at h
    · cases h
    · injection h with h
      omega
  have hexit := solveFrameSize_exit datarate s0 b hpos h
  unfold solveFrameSize at h
  rw [if_pos hpos, Run.bind_eq_ok] at h
  obtain ⟨rate, hr, h⟩ := h
  have hr0 := hr
  unfold rateInt at hr
  rw [checked_eq_ok] at hr
  obtain ⟨_, hrate⟩ := hr
  subst hrate
  simp only at h
  split at h
  · cases h
  · injection h with h
    obtain ⟨n, _, heq, hall⟩ := solveLoop_search (datarate * 1000000) s0.toNat s0
    rw [h] at heq
    refine ⟨hr0, ?_, ?_, ⟨n, heq⟩, by omega, hb, by omega⟩
    · rcases hexit with h1 | h1
      · omega
      · exact h1.2
    · intro j hj
      exact (hall j (by omega)).2

set_option maxRecDepth 100000 in
/-- C21 (defect in the code): the solver goes on, without its failure exit,
from start sizes of which no member of the sequence s0, s0-8, ... passes the
divisibility test. For 256 Mbps the start size 3 fails the only test made
(256000000 mod 3 is 1) and the solver returns -5; the start size 1006 fails
all 126 tests from 1006 down to 6 and the solver returns -2; the start size
-24 is returned without any test. None of these results is positive and
none has passed the test. For the start size 9000 the loop is left by its
break and the result 8192 does pass it. -/
theorem solver_returns_size_that_passed_no_test :
    rateInt 256 = .ok 256000000 ∧
    solveFrameSize 256 3 = .ok (-5) ∧ ¬ ((0 : Int) < -5) ∧
    (256000000 : Int).tmod 3 = 1 ∧
    solveFrameSize 256 1006 = .ok (-2) ∧ ¬ ((0 : Int) < -2) ∧
    (∀ j : Nat, j < 126 → (256000000 : Int).tmod (1006 - 8 * (j : Int)) ≠ 0) ∧
    (1006 : Int) - 8 * 125 = 6 ∧ (1006 : Int) - 8 * 126 = -2 ∧
    solveFrameSize 256 (-24) = .ok (-24) ∧
    solveFrameSize 256 9000 = .ok 8192 ∧ (256000000 : Int).tmod 8192 = 0 := by
  decide

/-! ## Frame-size solver: termination (C22) -/

/-- In datagram mode the start size of the solver is a positive multiple of
8 once udp.size exceeds a header size that is a multiple of 8. -/
theorem startSize_multiple_of_8 (udp u : Udp) (drop d header_bytes framesize : Int)
    (he : udp.enabled = true) (h : udpReserve udp drop = .ok (u, d))
    (hh : header_bytes % 8 = 0) (hlt : header_bytes < u.size) (hfit : fitsInt (u.size - header_bytes) = true) :
    startSize u header_bytes framesize = .ok (u.size - header_bytes) ∧
      0 < u.size - header_bytes ∧ (u.size - header_bytes) % 8 = 0 := by
  obtain ⟨hen, _, _, _, _, h8, _⟩ := udpReserve_ok udp drop u d he h
  unfold startSize
  rw [if_pos hen]
  unfold checked
  rw [if_pos hfit]
  exact ⟨rfl, by omega, by omega⟩

/-- C22: for a rate datarate >= 0 whose conversion datarate*10^6 fits an int
and a start size s0 that is a positive multiple of 8, the solver returns a
size b >= 8 and never takes its failure exit: b is s0 lowered by 8 some n
times with n + 1 <= s0/8 evaluations of the test, the first n of which fail
and the last of which passes, because 8 divides datarate*10^6. -/
theorem solver_never_fails_on_multiples_of_8 (datarate s0 : Int) (hd : 0 ≤ datarate)
    (hr : datarate * 1000000 < 2 ^ 31) (hs : 0 < s0) (h8 : s0 % 8 = 0) :
    (8 : Int) ∣ datarate * 1000000 ∧
    ∃ b : Int, solveFrameSize datarate s0 = .ok b ∧ 8 ≤ b ∧ b ≤ s0 ∧
      (datarate * 1000000).tmod b = 0 ∧
      ∃ n : Nat, (n : Int) + 1 ≤ s0 / 8 ∧ b = s0 - 8 * (n : Int) ∧
        ∀ j : Nat, j < n → (datarate * 1000000).tmod (s0 - 8 * (j : Int)) ≠ 0 := by
  have hdvd : (8 : Int) ∣ datarate * 1000000 := ⟨datarate * 125000, by ring⟩
  have hmod8 : (datarate * 1000000).tmod 8 = 0 := by
    obtain ⟨m, hm⟩ := hdvd
    rw [hm]
    exact Int.mul_tmod_right 8 m
  have hfit : rateInt datarate = .ok (datarate * 1000000) := by
    unfold rateInt
    exact checked_ok _ (by nlinarith) (by norm_num at hr; omega)
  obtain ⟨n, _, heq, hall⟩ := solveLoop_search (datarate * 1000000) s0.toNat s0
  have hfuel : s0 ≤ 8 * (s0.toNat : Int) := by
    rw [Int.toNat_of_nonneg (le_of_lt hs)]; omega
  have hn : (n : Int) + 1 ≤ s0 / 8 := by
    by_contra hcon
    have hk : ((s0 / 8 - 1).toNat : Int) = s0 / 8 - 1 := Int.toNat_of_nonneg (by omega)
    have hlt : (s0 / 8 - 1).toNat < n := by omega
    have := (hall (s0 / 8 - 1).toNat hlt).2
    rw [hk] at this
    have e : s0 - 8 * (s0 / 8 - 1) = 8 := by omega
    rw [e] at this
    exact this hmod8
  have hb8 : 8 ≤ solveLoop (datarate * 1000000) s0.toNat s0 := by rw [heq]; omega
  refine ⟨hdvd, solveLoop (datarate * 1000000) s0.toNat s0, ?_, hb8, solveLoop_le _ _ _, ?_,
    n, hn, heq, fun j hj => (hall j hj).2⟩
  · unfold solveFrameSize
    rw [if_pos hs, hfit]
    simp only [Run.bind]
    rw [if_neg (by omega)]
  · rcases solveLoop_exit (datarate * 1000000) s0.toNat s0 hfuel with h0 | h1
    · omega
    · exact h1.2

/-- For 256 Mbps and the start size 1432 of -udp 1500 the solver returns 1280. -/
theorem solver_never_fails_on_multiples_of_8_witness :
    solveFrameSize 256 1432 = .ok 1280 ∧
    ((8 : Int) ∣ 256 * 1000000 ∧
    ∃ b : Int, solveFrameSize 256 1432 = .ok b ∧ 8 ≤ b ∧ b ≤ 1432 ∧
      ((256 : Int) * 1000000).tmod b = 0 ∧
      ∃ n : Nat, (n : Int) + 1 ≤ 1432 / 8 ∧ b = 1432 - 8 * (n : Int) ∧
        ∀ j : Nat, j < n → ((256 : Int) * 1000000).tmod (1432 - 8 * (j : Int)) ≠ 0) :=
  ⟨by decide, solver_never_fails_on_multiples_of_8 256 1432 (by decide) (by decide)
    (by decide) (by decide)⟩

/-! ## Range of the bit rate (C23) -/

/-- C23 (defect in the code): no option is checked for its size. With
-bandwidth 256 and the default 4 channels of 2 bits the product of line 454
is 4096 Mbps, and 4096000000 is above the largest int 2147483647: the
conversion (int)(datarate*1e6) of line 491 is outside the range of int, so
the solver tests no defined rate. With 1024 channels of 32 bits and
bandwidth 65536 the int product of line 454 itself leaves the range. -/
theorem rate_conversion_leaves_int_range :
    datarate wideband.numchan wideband.bits wideband.bandwidth = .ok 4096 ∧
    (4096 : Int) * 1000000 > INT_MAX ∧
    rateInt 4096 = .undefined ∧
    solveFrameSize 4096 9000 = .undefined ∧
    sizing wideband = .undefined ∧
    datarate 1024 32 65536 = .undefined := by
  decide

/-! ## Drop test (C24) -/

/-- C24 (defect in the code): the option -drop takes any integer. With
-udp 1500 -drop 0 the sizing keeps drop = 0, the test drop<0 of line 619 is
false and the first cycle evaluates totalpackets % drop with a zero divisor.
In stream mode line 470 sets drop to -1 and the modulo is not reached. -/
theorem drop_zero_reaches_modulo :
    (sizing udp1500drop0).bind (fun z => .ok (loopCfg udp1500drop0 z)) = .ok cfgDrop0 ∧
    cfgDrop0.drop = 0 ∧
    sendStep cfgDrop0 entryDrop3 = .undefined ∧
    run cfgDrop0 1 entryDrop3 = .undefined ∧
    (sizing { defaults with drop := 0 }).bind (fun z => .ok z.drop) = .ok (-1) := by
  decide

/-! ## Copy to the caller of turns_to_string (C25) -/

/-- The hours form of zero turns with no decimal places is 00:00:00. -/
theorem turnsOut_zero :
    turnsOut 0 'H' 0 = .ok ['0', '0', ':', '0', '0', ':', '0', '0'] := by
  have c0 : checked 0 = .ok 0 := by decide
  have e3 : (if (0 : ℚ) ≥ 0 then (1 : Int) else -1) = 1 := if_pos (le_refl _)
  have hf : ⌊(1 / 2 : ℚ) + 0⌋.toNat = 0 := by
    have : ⌊(1 / 2 : ℚ) + 0⌋ = 0 := by rw [Int.floor_eq_iff]; norm_num
    rw [this]; rfl
  unfold turnsOut
  simp only [decide_True, Bool.true_or, ↓reduceIte, e3, Int.cast_one, mul_one, Int.floor_zero,
    c0, Run.bind, mul_zero, Int.cast_zero, sub_zero, hf]
  decide

/-- The copy loop started at the length of the string stores the terminating
character at that index first. -/
theorem writesFrom_head (out : List Char) :
    (writesFrom out out.length).head? = some ((out.length : Int), NUL) := by
  cases h : out.length with
  | zero =>
    have : out = [] := List.length_eq_zero.1 h
    subst this
    rfl
  | succ n =>
    unfold writesFrom
    rw [List.head?_cons, ← h, List.getD_eq_default _ _ (le_refl _)]

/-- C25 (defect in the code): the length test of line 950 is i > nstr, so a
string of exactly nstr characters is copied whole with its terminating
character, and the first store of the loop is to str[nstr], one past the
last index nstr-1 of the caller. For zero turns in hours with no decimal
places the string is 00:00:00; with nstr = 8 the stores are to the indices
8, 7, ..., 0, while with nstr = 7 the string is cut and the stores are to
6, ..., 0. -/
theorem turns_to_string_writes_past_end :
    (∀ out : List Char, strWrites out (out.length : Int) = .ok (writesFrom out out.length) ∧
      (writesFrom out out.length).head? = some ((out.length : Int), NUL)) ∧
    turns_to_string 0 'H' 0 8 =
      .ok [(8, NUL), (7, '0'), (6, '0'), (5, ':'), (4, '0'), (3, '0'), (2, ':'), (1, '0'),
        (0, '0')] ∧
    turns_to_string 0 'H' 0 7 =
      .ok [(6, NUL), (5, ':'), (4, '0'), (3, '0'), (2, ':'), (1, '0'), (0, '0')] := by
  refine ⟨fun out => ⟨?_, writesFrom_head out⟩, ?_, ?_⟩
  · unfold strWrites
    simp only [gt_iff_lt, lt_self_iff_false, ↓reduceIte]
  · unfold turns_to_string
    rw [turnsOut_zero]
    decide
  · unfold turns_to_string
    rw [turnsOut_zero]
    decide

end VdifFake
